import Mathlib

set_option maxRecDepth 8000

/-!
Shallow embedding of the `scripts/` directory of the ai-helpers repository
(`validate_tools.py`, `build-website.py`, `update_claude_settings.py`) and
proofs about the claims of its specification.

Modeling conventions:
* JSON/YAML documents are modeled by the inductive `JVal`.  Non-integer
  numbers do not occur in any claim and are not modeled.  Objects keep key
  insertion order, exactly like Python dicts; objects obtained from
  `json.load` have pairwise distinct keys.
* Python code that can raise is embedded as `Except PyErr`.
* Filesystem reads and the external YAML parser are environment parameters.
-/

/-- A single-quote character as a string; rendered Python error messages
quote names with it. -/
def pyQuote : String := String.singleton (Char.ofNat 39)

/-- JSON-like values as produced by json.load / yaml.safe_load. -/
inductive JVal where
  | str (s : String)
  | num (n : Int)
  | bool (b : Bool)
  | null
  | list (xs : List JVal)
  | obj (fields : List (String × JVal))

/-- Python exceptions reachable in the embedded code paths. -/
inductive PyErr where
  | attributeError (msg : String)
  | typeError (msg : String)
  | keyError (msg : String)
deriving DecidableEq

/-- Python truthiness `bool(x)` of a JSON value. -/
def pyTruthy : JVal → Bool
  | .str s => !s.isEmpty
  | .num n => n != 0
  | .bool b => b
  | .null => false
  | .list xs => !xs.isEmpty
  | .obj fs => !fs.isEmpty

/-- Python `type(x).__name__` for the modeled value universe. -/
def typeName : JVal → String
  | .str _ => "str"
  | .num _ => "int"
  | .bool _ => "bool"
  | .null => "NoneType"
  | .list _ => "list"
  | .obj _ => "dict"

/-- Whether the value is hashable in Python (usable as a set element or dict
key).  Lists and dicts are unhashable. -/
def pyHashable : JVal → Bool
  | .list _ => false
  | .obj _ => false
  | _ => true

/-- Python `==` restricted to the comparisons the embedded code can reach:
both operands hashable (set/dict operations hash their argument first and
raise on lists/dicts before ever comparing), or one operand a string compared
against an arbitrary value (cross-type `==` is `False`).  Recursive container
equality is therefore unreachable and modeled as `false`. -/
def pyEq : JVal → JVal → Bool
  | .str a, .str b => a == b
  | .num a, .num b => a == b
  | .bool a, .bool b => a == b
  | .bool a, .num b => (if a then (1 : Int) else 0) == b
  | .num a, .bool b => a == (if b then (1 : Int) else 0)
  | .null, .null => true
  | _, _ => false

/-- First-match lookup in an object's field list (Python dict indexing; keys
of parsed objects are unique, so first match is the match). -/
def lookupField (k : String) : List (String × JVal) → Option JVal
  | [] => none
  | (k2, v) :: fs => if k2 == k then some v else lookupField k fs

mutual

/-- Python `repr` for the modeled values (used by `str()` on containers).
String escaping inside container reprs is not exercised by any claim. -/
def pyRepr : JVal → String
  | .str s => pyQuote ++ s ++ pyQuote
  | .num n => toString n
  | .bool b => if b then "True" else "False"
  | .null => "None"
  | .list xs => "[" ++ pyReprList xs ++ "]"
  | .obj fs => "\x7b" ++ pyReprFields fs ++ "\x7d"

/-- Comma-separated reprs of list elements. -/
def pyReprList : List JVal → String
  | [] => ""
  | [x] => pyRepr x
  | x :: y :: xs => pyRepr x ++ ", " ++ pyReprList (y :: xs)

/-- Comma-separated reprs of dict entries. -/
def pyReprFields : List (String × JVal) → String
  | [] => ""
  | [(k, v)] => pyQuote ++ k ++ pyQuote ++ ": " ++ pyRepr v
  | (k, v) :: f :: fs => pyQuote ++ k ++ pyQuote ++ ": " ++ pyRepr v ++ ", " ++ pyReprFields (f :: fs)

end

/-- Python `str(x)` as interpolated by f-strings. -/
def pyStr : JVal → String
  | .str s => s
  | v => pyRepr v

/-- The characters Python's `str.strip()` removes (ASCII whitespace; also the
ASCII part of the regex class `\s`). -/
def isPyWs (c : Char) : Bool :=
  c == ' ' || c == '\t' || c == '\n' || c == '\r' || c == '\x0b' || c == '\x0c'

/-- Python `s.strip()` (ASCII whitespace; no claim involves non-ASCII
whitespace). -/
def pyStripWs (s : String) : String :=
  ⟨((s.data.dropWhile isPyWs).reverse.dropWhile isPyWs).reverse⟩

/-- Python `sorted` on strings (byte/code-point lexicographic order, the
same order Lean's `String` `≤` uses; Python's sort and insertion sort are
both stable). -/
def pySortedStrs (l : List String) : List String := l.insertionSort (· ≤ ·)

/-- Conversion of a string list to a Python `set`, modeled as the list of
distinct elements in first-occurrence order (downstream code only takes
membership or sorts, so the internal hash order is irrelevant). -/
def dedupStrsAux : List String → List String → List String
  | [], _ => []
  | x :: xs, seen =>
    if seen.contains x then dedupStrsAux xs seen
    else x :: dedupStrsAux xs (x :: seen)

/-- Distinct elements of a list in first-occurrence order. -/
def dedupStrs (l : List String) : List String := dedupStrsAux l []

/-- Python `set.add` for string sets modeled as dup-free lists. -/
def setAddStr (l : List String) (x : String) : List String :=
  if l.contains x then l else l ++ [x]

/-- Python dict assignment `d[k] = v` for dicts with JVal keys (callers hash
the key first; see `pyHashable`).  Existing keys keep their position. -/
def pyDictSet : List (JVal × JVal) → JVal → JVal → List (JVal × JVal)
  | [], k, v => [(k, v)]
  | (k2, v2) :: rest, k, v =>
    if pyEq k2 k then (k2, v) :: rest else (k2, v2) :: pyDictSet rest k v

/-- Python dict lookup for dicts with JVal keys. -/
def pyDictGet : List (JVal × JVal) → JVal → Option JVal
  | [], _ => none
  | (k2, v2) :: rest, k => if pyEq k2 k then some v2 else pyDictGet rest k

/-- Python `x in s` for a set `s` of hashable values (callers hash `x`
first; see `pyHashable`). -/
def pyInSet (x : JVal) (seen : List JVal) : Bool := seen.any (fun y => pyEq y x)

/-- Python `v.get(k, d)`: raises AttributeError unless `v` is a dict. -/
def pyGetD (v : JVal) (k : String) (d : JVal) : Except PyErr JVal :=
  match v with
  | .obj fs => .ok ((lookupField k fs).getD d)
  | v => .error (.attributeError
      (pyQuote ++ typeName v ++ pyQuote ++ " object has no attribute " ++ pyQuote ++ "get" ++ pyQuote))

/-- Python `for x in v`: the sequence iterated, or TypeError. -/
def pyIter : JVal → Except PyErr (List JVal)
  | .list xs => .ok xs
  | .str s => .ok (s.data.map (fun c => .str (String.singleton c)))
  | .obj fs => .ok (fs.map (fun kv => JVal.str kv.1))
  | v => .error (.typeError (pyQuote ++ typeName v ++ pyQuote ++ " object is not iterable"))

/-- Whether `needle` is a prefix of `hay`. -/
def isPrefixList : List Char → List Char → Bool
  | [], _ => true
  | _ :: _, [] => false
  | a :: as, b :: bs => a == b && isPrefixList as bs

/-- Whether `needle` occurs as a contiguous substring of `hay`. -/
def isSubstrList (needle : List Char) : List Char → Bool
  | [] => needle.isEmpty
  | c :: rest => isPrefixList needle (c :: rest) || isSubstrList needle rest

/-- Python `k in v` for a string key `k`: dict key test, list membership,
substring test on strings, TypeError otherwise. -/
def pyContainsStr (v : JVal) (k : String) : Except PyErr Bool :=
  match v with
  | .obj fs => .ok (lookupField k fs).isSome
  | .list xs => .ok (xs.any (fun y => pyEq y (.str k)))
  | .str s => .ok (isSubstrList k.data s.data)
  | v => .error (.typeError ("argument of type " ++ pyQuote ++ typeName v ++ pyQuote ++ " is not iterable"))

/-- Python subscript `v[k]` for a string key. -/
def pyGetItem (v : JVal) (k : String) : Except PyErr JVal :=
  match v with
  | .obj fs =>
    match lookupField k fs with
    | some x => .ok x
    | none => .error (.keyError (pyQuote ++ k ++ pyQuote))
  | .str _ => .error (.typeError "string indices must be integers")
  | .list _ => .error (.typeError "list indices must be integers or slices, not str")
  | v => .error (.typeError (pyQuote ++ typeName v ++ pyQuote ++ " object is not subscriptable"))

/-- ASCII uppercase test. -/
def isAsciiUpper (c : Char) : Bool := 'A' ≤ c && c ≤ 'Z'

/-- Python `str.lower` per character.  Python's lower is Unicode-aware; every
string any claim evaluates is ASCII, and no non-ASCII character lowers into
`[a-zA-Z0-9]`, so ASCII lowering is faithful for everything proved here. -/
def pyLowerChar (c : Char) : Char :=
  if isAsciiUpper c then Char.ofNat (c.toNat + 32) else c

/-- The regex class `[a-zA-Z0-9]` used by `title_to_slug`. -/
def slugKeep (c : Char) : Bool :=
  ('a' ≤ c && c ≤ 'z') || ('A' ≤ c && c ≤ 'Z') || ('0' ≤ c && c ≤ '9')

/-- Replace every maximal run of `bad` characters by a single hyphen
(`re.sub(bad+, "-", ·)`).  `inRun` records whether the previous character was
part of a bad run. -/
def collapseRunsAux (bad : Char → Bool) : Bool → List Char → List Char
  | _, [] => []
  | inRun, c :: cs =>
    if bad c then
      if inRun then collapseRunsAux bad true cs
      else '-' :: collapseRunsAux bad true cs
    else c :: collapseRunsAux bad false cs

/-- Python `s.strip(c)` on char lists. -/
def stripChar (c : Char) (l : List Char) : List Char :=
  ((l.dropWhile (· == c)).reverse.dropWhile (· == c)).reverse

/-- validate_tools.py lines 36-38: gem title to slug,
`re.sub(r"[^a-zA-Z0-9]+", "-", title.lower()).strip("-")`. -/
def title_to_slug (title : String) : String :=
  ⟨stripChar '-' (collapseRunsAux (fun c => !slugKeep c) false (title.data.map pyLowerChar))⟩

/-- The ASCII part of the regex class `\w`. -/
def isPyWordChar (c : Char) : Bool := slugKeep c || c == '_'

/-- build-website.py lines 182-189 (nested in `get_tool_metadata`): gem title
to kebab case: `re.sub(r"[^\w\s-]", "", title.lower())`, then
`re.sub(r"[-\s]+", "-", ·)`, then `.strip("-")`. -/
def title_to_kebab_case (title : String) : String :=
  let cleaned := (title.data.map pyLowerChar).filter
    (fun c => isPyWordChar c || isPyWs c || c == '-')
  ⟨stripChar '-' (collapseRunsAux (fun c => isPyWs c || c == '-') false cleaned)⟩

/-! validate_tools.py -/

/-- `REQUIRED_TOOL_FIELDS` (validate_tools.py line 32).  Python iterates this
as a hash set whose iteration order is implementation-defined; the embedding
fixes the source-literal order.  No settled claim depends on this order. -/
def requiredToolFields : List String := ["name", "description", "type", "category"]

/-- `VALID_TOOL_TYPES` (validate_tools.py line 31); only sorted or used for
membership, so list order is irrelevant. -/
def validToolTypes : List String := ["skill", "command", "agent", "gem"]

/-- `', '.flatten(sorted(ALLOWED_TOOL_FIELDS))`. -/
def allowedFieldsJoined : String := String.intercalate ", " (pySortedStrs requiredToolFields)

/-- `', '.flatten(sorted(VALID_TOOL_TYPES))`. -/
def validTypesJoined : String := String.intercalate ", " (pySortedStrs validToolTypes)

/-- Error string of validate_tools.py line 127. -/
def missingFieldMsg (toolName field : String) : String :=
  "Tool " ++ pyQuote ++ toolName ++ pyQuote ++ " is missing required field: " ++ field

/-- Error string of validate_tools.py lines 132-134. -/
def disallowedFieldMsg (toolName field : String) : String :=
  "Tool " ++ pyQuote ++ toolName ++ pyQuote ++ " has disallowed field: " ++ field
    ++ ". Only allowed fields: " ++ allowedFieldsJoined

/-- Error string of validate_tools.py lines 139-141. -/
def invalidTypeMsg (toolName tyStr : String) : String :=
  "Tool " ++ pyQuote ++ toolName ++ pyQuote ++ " has invalid type " ++ pyQuote ++ tyStr
    ++ pyQuote ++ ". Valid types: " ++ validTypesJoined

/-- Error string of validate_tools.py lines 148-150 (also lines 168-170). -/
def fieldNotStringMsg (toolName field tn : String) : String :=
  "Tool " ++ pyQuote ++ toolName ++ pyQuote ++ " field " ++ pyQuote ++ field ++ pyQuote
    ++ " must be a string, got " ++ tn

/-- Error string of validate_tools.py line 152. -/
def emptyFieldMsg (toolName field : String) : String :=
  "Tool " ++ pyQuote ++ toolName ++ pyQuote ++ " has empty " ++ field

/-- Error string of validate_tools.py line 242. -/
def dupNameMsg (nameStr : String) : String :=
  "Duplicate tool name: " ++ pyQuote ++ nameStr ++ pyQuote

/-- Error string of validate_tools.py lines 179-181. -/
def missingCatMsg (c : String) : String :=
  "Category " ++ pyQuote ++ c ++ pyQuote
    ++ " is referenced by tools but not defined in categories section"

/-- Error string of validate_tools.py line 186. -/
def unusedCatMsg (c : String) : String :=
  "Category " ++ pyQuote ++ c ++ pyQuote ++ " is defined but not used by any tools"

/-- Error string of validate_tools.py lines 197-199. -/
def catNotObjMsg (k tn : String) : String :=
  "Category " ++ pyQuote ++ k ++ pyQuote ++ " must be an object, got " ++ tn

/-- Error string of validate_tools.py lines 204-208. -/
def catMissingFieldMsg (k f : String) : String :=
  "Category " ++ pyQuote ++ k ++ pyQuote ++ " is missing required field: " ++ f

/-- Error string of validate_tools.py lines 214-216 and 224-226. -/
def catFieldNotStringMsg (k f tn : String) : String :=
  "Category " ++ pyQuote ++ k ++ pyQuote ++ " field " ++ pyQuote ++ f ++ pyQuote
    ++ " must be a string, got " ++ tn

/-- Error string of validate_tools.py lines 218 and 228. -/
def catEmptyMsg (k f : String) : String :=
  "Category " ++ pyQuote ++ k ++ pyQuote ++ " has empty " ++ f

/-- Error string of validate_tools.py lines 262-264. -/
def fsMissingMsg (n t : String) : String :=
  "Tool " ++ pyQuote ++ n ++ pyQuote ++ " (type: " ++ t
    ++ ") found in filesystem but missing from tools.json"

/-- Error string of validate_tools.py lines 266-268. -/
def fsMismatchMsg (n ft jt : String) : String :=
  "Tool " ++ pyQuote ++ n ++ pyQuote ++ " has mismatched type: filesystem=" ++ ft
    ++ ", tools.json=" ++ jt

/-- Error string of validate_tools.py lines 300-302. -/
def toolNotObjMsg (i : Nat) (tn : String) : String :=
  "Tool at index " ++ toString i ++ " must be an object, got " ++ tn

/-- Checks on one required field value (validate_tools.py lines 144-152):
a present, non-None value must be a string, and that string must not be
empty or all-whitespace. -/
def toolFieldErrors (toolName : String) (tool : List (String × JVal)) (field : String) :
    List String :=
  match lookupField field tool with
  | none => []
  | some .null => []
  | some (.str s) => if (pyStripWs s).isEmpty then [emptyFieldMsg toolName field] else []
  | some v => [fieldNotStringMsg toolName field (typeName v)]

/-- The `type` check of validate_tools.py lines 137-141.  `tool_type not in
VALID_TOOL_TYPES` hashes the value, raising TypeError on unhashable values. -/
def toolTypeErrors (toolName : String) (tool : List (String × JVal)) :
    Except PyErr (List String) :=
  match lookupField "type" tool with
  | none => .ok []
  | some tv =>
    if pyTruthy tv then
      if pyHashable tv then
        .ok (if validToolTypes.any (fun s => pyEq tv (.str s)) then []
             else [invalidTypeMsg toolName (pyStr tv)])
      else .error (.typeError ("unhashable type: " ++ pyQuote ++ typeName tv ++ pyQuote))
    else .ok []

/-- validate_tool_structure (validate_tools.py lines 119-154).  The caller
guarantees `tool` is a dict; its field list is passed directly. -/
def validate_tool_structure (tool : List (String × JVal)) (index : Nat) :
    Except PyErr (List String) := do
  let toolName := pyStr ((lookupField "name" tool).getD (.str ("tool[" ++ toString index ++ "]")))
  let missingErrs :=
    (requiredToolFields.filter (fun f => (lookupField f tool).isNone)).map (missingFieldMsg toolName)
  let disallowedErrs :=
    (pySortedStrs (dedupStrs ((tool.map Prod.fst).filter
      (fun k => !requiredToolFields.contains k)))).map (disallowedFieldMsg toolName)
  let typeErrs ← toolTypeErrors toolName tool
  let fieldErrs := (requiredToolFields.map (toolFieldErrors toolName tool)).flatten
  return missingErrs ++ disallowedErrs ++ typeErrs ++ fieldErrs

/-- Loop of validate_tool_names_unique (validate_tools.py lines 238-244),
carrying the `seen_names` set.  `tool.get` raises on non-dict entries;
`name in seen_names` hashes the name and raises on unhashable values. -/
def validateToolNamesUniqueAux : List JVal → List JVal → Except PyErr (List String)
  | [], _ => .ok []
  | t :: ts, seen => do
    let name ← pyGetD t "name" .null
    if pyTruthy name then
      if pyHashable name then
        if pyInSet name seen then do
          let rest ← validateToolNamesUniqueAux ts seen
          return dupNameMsg (pyStr name) :: rest
        else validateToolNamesUniqueAux ts (name :: seen)
      else .error (.typeError ("unhashable type: " ++ pyQuote ++ typeName name ++ pyQuote))
    else validateToolNamesUniqueAux ts seen

/-- validate_tool_names_unique (validate_tools.py lines 233-246). -/
def validate_tool_names_unique (tools : List JVal) : Except PyErr (List String) :=
  validateToolNamesUniqueAux tools []

/-- First loop of validate_categories (validate_tools.py lines 162-172):
collects the non-string-category type errors (in tool order) and the set of
referenced category strings. -/
def categoriesTypeAndRefsAux : List JVal → Nat → List String →
    Except PyErr (List String × List String)
  | [], _, refs => .ok ([], refs)
  | t :: ts, i, refs => do
    let category ← pyGetD t "category" .null
    if pyTruthy category then
      match category with
      | .str c => categoriesTypeAndRefsAux ts (i + 1) (setAddStr refs c)
      | v => do
        let toolName ← pyGetD t "name" (.str ("tool[" ++ toString i ++ "]"))
        let (errs, outRefs) ← categoriesTypeAndRefsAux ts (i + 1) refs
        return (fieldNotStringMsg (pyStr toolName) "category" (typeName v) :: errs, outRefs)
    else categoriesTypeAndRefsAux ts (i + 1) refs

/-- `sorted(referenced_categories - defined_categories)`
(validate_tools.py lines 177-178). -/
def missingCategories (refs : List String) (cats : List (String × JVal)) : List String :=
  pySortedStrs (refs.filter (fun c => !(dedupStrs (cats.map Prod.fst)).contains c))

/-- `sorted(defined_categories - referenced_categories)`
(validate_tools.py lines 184-185). -/
def unusedCategories (refs : List String) (cats : List (String × JVal)) : List String :=
  pySortedStrs ((dedupStrs (cats.map Prod.fst)).filter (fun c => !refs.contains c))

/-- validate_categories (validate_tools.py lines 157-188). -/
def validate_categories (tools : List JVal) (cats : List (String × JVal)) :
    Except PyErr (List String) := do
  let (typeErrs, refs) ← categoriesTypeAndRefsAux tools 0 []
  return typeErrs ++ (missingCategories refs cats).map missingCatMsg
    ++ (unusedCategories refs cats).map unusedCatMsg

/-- String checks on one category sub-field
(validate_tools.py lines 211-228). -/
def catStrFieldErrors (k f : String) (fs : List (String × JVal)) : List String :=
  match lookupField f fs with
  | none => []
  | some .null => []
  | some (.str s) => if (pyStripWs s).isEmpty then [catEmptyMsg k f] else []
  | some v => [catFieldNotStringMsg k f (typeName v)]

/-- Errors of one `categories` entry (validate_tools.py lines 195-228). -/
def catEntryErrors (k : String) (v : JVal) : List String :=
  match v with
  | .obj fs =>
    (if (lookupField "name" fs).isNone then [catMissingFieldMsg k "name"] else [])
    ++ (if (lookupField "description" fs).isNone then [catMissingFieldMsg k "description"] else [])
    ++ catStrFieldErrors k "name" fs ++ catStrFieldErrors k "description" fs
  | v => [catNotObjMsg k (typeName v)]

/-- validate_category_structure (validate_tools.py lines 191-230), iterating
`categories.items()` in insertion order. -/
def validate_category_structure (cats : List (String × JVal)) : List String :=
  (cats.map (fun kv => catEntryErrors kv.1 kv.2)).flatten

/-- The dict comprehension of validate_tools.py lines 255-257:
`{tool.get("name"): tool.get("type") for tool in tools}`.  Raises on non-dict
entries (`.get`) and on unhashable name values (dict key insertion). -/
def jsonToolsDictAux : List JVal → List (JVal × JVal) → Except PyErr (List (JVal × JVal))
  | [], acc => .ok acc
  | t :: ts, acc => do
    let n ← pyGetD t "name" .null
    let ty ← pyGetD t "type" .null
    if pyHashable n then jsonToolsDictAux ts (pyDictSet acc n ty)
    else .error (.typeError ("unhashable type: " ++ pyQuote ++ typeName n ++ pyQuote))

/-- Errors emitted for one FilesystemToolView entry
(validate_tools.py lines 260-268). -/
def fsEntryErrors (jd : List (JVal × JVal)) (p : String × String) : List String :=
  match pyDictGet jd (.str p.1) with
  | none => [fsMissingMsg p.1 p.2]
  | some ty => if pyEq ty (.str p.2) then [] else [fsMismatchMsg p.1 p.2 (pyStr ty)]

/-- The FilesystemToolView: tool name to inferred type, in filesystem
enumeration order; a Python dict, so names are pairwise distinct. -/
def FsView : Type := List (String × String)

/-- validate_filesystem_tools_in_json (validate_tools.py lines 249-270).
`get_filesystem_tools` is filesystem I/O, so the FilesystemToolView it
produces is passed in directly. -/
def validate_filesystem_tools_in_json (toolsData : List (String × JVal))
    (fs : List (String × String)) : Except PyErr (List String) := do
  let items ← pyIter ((lookupField "tools" toolsData).getD (.list []))
  let jd ← jsonToolsDictAux items []
  return (fs.map (fsEntryErrors jd)).flatten

/-- Per-tool loop of validate_tools_json (validate_tools.py lines 298-304):
non-dict entries produce one collected error, dict entries are checked with
validate_tool_structure. -/
def perToolErrors : List JVal → Nat → Except PyErr (List String)
  | [], _ => .ok []
  | t :: ts, i => do
    let here ← match t with
      | .obj fs => validate_tool_structure fs i
      | v => .ok [toolNotObjMsg i (typeName v)]
    let rest ← perToolErrors ts (i + 1)
    return here ++ rest

/-- validate_tools_json (validate_tools.py lines 273-317).  `fsView` is
`some fs` when a helpers directory was supplied and exists, in which case
`fs` is the FilesystemToolView scanned from it; `none` otherwise. -/
def validate_tools_json (toolsData : List (String × JVal))
    (fsView : Option (List (String × String))) : Except PyErr (List String) :=
  if (lookupField "tools" toolsData).isNone then
    .ok ["Missing required " ++ pyQuote ++ "tools" ++ pyQuote ++ " field"]
  else if (lookupField "categories" toolsData).isNone then
    .ok ["Missing required " ++ pyQuote ++ "categories" ++ pyQuote ++ " field"]
  else
    match (lookupField "tools" toolsData).getD (.list []) with
    | .list tl =>
      match (lookupField "categories" toolsData).getD (.obj []) with
      | .obj cats => do
        let perTool ← perToolErrors tl 0
        let uniq ← validate_tool_names_unique tl
        let catStruct := validate_category_structure cats
        let catErrs ← validate_categories tl cats
        let fsErrs ← match fsView with
          | none => .ok []
          | some fs => validate_filesystem_tools_in_json toolsData fs
        return perTool ++ uniq ++ catStruct ++ catErrs ++ fsErrs
      | _ => .ok [pyQuote ++ "categories" ++ pyQuote ++ " field must be an object"]
    | _ => .ok [pyQuote ++ "tools" ++ pyQuote ++ " field must be an array"]

/-! update_claude_settings.py -/

/-- Loop body of load_external_plugins (update_claude_settings.py lines
80-101).  `"name" in plugin` raises TypeError on non-iterable entries; the
missing-source warning f-string evaluates `plugin.get('name')`, raising
AttributeError on non-dict entries; subscripting raises on non-dict
entries.  Well-formed entries are appended as normalized
name/description/source records. -/
def loadExternalPluginsAux : List JVal → Except PyErr (List (List (String × JVal)))
  | [] => .ok []
  | p :: ps => do
    let hasName ← pyContainsStr p "name"
    if !hasName then loadExternalPluginsAux ps
    else do
      let hasSource ← pyContainsStr p "source"
      if !hasSource then do
        let _ ← pyGetD p "name" .null
        loadExternalPluginsAux ps
      else do
        let n ← pyGetItem p "name"
        let desc ← pyGetD p "description" (.str (pyStr n ++ " plugin"))
        let src ← pyGetItem p "source"
        let rest ← loadExternalPluginsAux ps
        return [("name", n), ("description", desc), ("source", src)] :: rest

/-- load_external_plugins (update_claude_settings.py lines 63-103).
`config` is the parsed external-plugin document, or `none` when the file is
absent or unreadable/unparseable (lines 69-77 return the empty list). -/
def load_external_plugins (config : Option JVal) :
    Except PyErr (List (List (String × JVal))) :=
  match config with
  | none => .ok []
  | some cfg => do
    let pluginsVal ← pyGetD cfg "plugins" (.list [])
    let items ← pyIter pluginsVal
    loadExternalPluginsAux items

/-- The synthetic bundled local plugin entry
(update_claude_settings.py lines 139-146). -/
def bundledPlugin : List (String × JVal) :=
  [("name", .str "odh-ai-helpers"), ("source", .str "./helpers"),
   ("description", .str "AI automation tools, plugins, and assistants for enhanced productivity"),
   ("strict", .bool false)]

/-- The marketplace document: its fixed name/owner fields and the plugins
list (update_claude_settings.py lines 129-133). -/
structure Marketplace where
  name : String
  ownerName : String
  plugins : List (List (String × JVal))

set_option linter.unusedVariables false in
/-- generate_marketplace_json (update_claude_settings.py lines 125-148).
`toolsConfig` is accepted and unused, as in the source. -/
def generate_marketplace_json (toolsConfig : JVal)
    (externalPlugins : List (List (String × JVal))) : Marketplace :=
  { name := "odh-ai-helpers", ownerName := "ODH",
    plugins := externalPlugins ++ [bundledPlugin] }

/-- The marketplace pipeline of `main` (update_claude_settings.py lines 205
and 221): load the external plugins, then generate the marketplace. -/
def marketplaceFromConfig (toolsConfig : JVal) (config : Option JVal) :
    Except PyErr Marketplace := do
  let ext ← load_external_plugins config
  return generate_marketplace_json toolsConfig ext

/-! build-website.py -/

/-- The filesystem/YAML environment of build-website.py: `Path.exists`,
`read_text` (`none` models a raised read error, caught by the callers), and
`yaml.safe_load` (`none` models a parse error, likewise caught).  Paths are
repo-root-relative strings. -/
structure Env where
  pathExists : String → Bool
  readText : String → Option String
  yamlLoad : String → Option JVal

/-- get_tool_file_path (build-website.py lines 29-51); the existence check on
skill files only prints a warning, leaving the result unchanged, and gems and
unknown types both yield the empty path. -/
def get_tool_file_path (tool : List (String × JVal)) : Except PyErr String := do
  let ty ← pyGetItem (.obj tool) "type"
  let nm ← pyGetItem (.obj tool) "name"
  if pyEq ty (.str "skill") then
    return "helpers/skills/" ++ pyStr nm ++ "/SKILL.md"
  else if pyEq ty (.str "command") then
    return "helpers/commands/" ++ pyStr nm ++ ".md"
  else if pyEq ty (.str "agent") then
    return "helpers/agents/" ++ pyStr nm ++ ".md"
  else
    return ""

/-- Index of the first occurrence of `needle` in the remaining text, where
`i` is the index of the head of the remaining text (Python `str.find`). -/
def findSubAux (needle : List Char) : List Char → Nat → Option Nat
  | [], i => if needle.isEmpty then some i else none
  | c :: rest, i =>
    if isPrefixList needle (c :: rest) then some i
    else findSubAux needle rest (i + 1)

/-- Python `hay.find(needle, start)`, as an `Option`. -/
def findSubFrom (hay needle : List Char) (start : Nat) : Option Nat :=
  findSubAux needle (hay.drop start) start

/-- The bounded front-matter block (build-website.py lines 74-77, 104-107 and
147-150): for content starting with a `---` line, the text between it and the
next `---` line, if any. -/
def extractFrontmatter (content : String) : Option String :=
  if isPrefixList "---\n".data content.data then
    match findSubFrom content.data "\n---\n".data 4 with
    | some e => some ⟨(content.data.drop 4).take (e - 4)⟩
    | none => none
  else none

/-- Python dict assignment for string-keyed dicts, keeping position on
overwrite. -/
def strDictSet : List (String × JVal) → String → JVal → List (String × JVal)
  | [], k, v => [(k, v)]
  | (k2, v2) :: rest, k, v =>
    if k2 == k then (k2, v) :: rest else (k2, v2) :: strDictSet rest k v

/-- Split a line at its first colon (Python `line.split(":", 1)`). -/
def splitFirstColon : List Char → List Char × List Char
  | [] => ([], [])
  | c :: rest =>
    if c == ':' then ([], rest)
    else
      let (a, b) := splitFirstColon rest
      (c :: a, b)

/-- Lines loop of the simple `key: value` front-matter parser
(build-website.py lines 108-111). -/
def parseSimpleKVAux : List String → List (String × JVal) → List (String × JVal)
  | [], acc => acc
  | line :: rest, acc =>
    if line.data.contains ':' then
      let (k, v) := splitFirstColon line.data
      parseSimpleKVAux rest (strDictSet acc (pyStripWs ⟨k⟩) (.str (pyStripWs ⟨v⟩)))
    else parseSimpleKVAux rest acc

/-- The simple front-matter parser of build-website.py lines 101-111. -/
def parseSimpleKV (fmContent : String) : List (String × JVal) :=
  parseSimpleKVAux ((pyStripWs fmContent).splitOn "\n") []

/-- Drop an exact literal from the head of the text, or fail. -/
def dropLit : List Char → List Char → Option (List Char)
  | [], rest => some rest
  | _ :: _, [] => none
  | a :: as, b :: bs => if a == b then dropLit as bs else none

/-- Attempt the synopsis regex of build-website.py lines 116-118 at the head
of `l`; returns the captured first code line.  The pattern is a literal
`## Synopsis`, greedy whitespace, a code fence with the rest of its line, a
newline, then a non-empty captured run of non-newline characters. -/
def matchSynopsisAt (l : List Char) : Option (List Char) := do
  let r1 ← dropLit "## Synopsis".data l
  let r2 := r1.dropWhile isPyWs
  let r3 ← dropLit "```".data r2
  let r4 := r3.dropWhile (fun c => !(c == '\n'))
  let r5 ← match r4 with
    | '\n' :: rest => some rest
    | _ => none
  let cap := r5.takeWhile (fun c => !(c == '\n'))
  if cap.isEmpty then none else some cap

/-- `re.search` for the synopsis pattern: leftmost match. -/
def searchSynopsis : List Char → Option (List Char)
  | [] => none
  | c :: rest =>
    match matchSynopsisAt (c :: rest) with
    | some cap => some cap
    | none => searchSynopsis rest

/-- Whether a metadata dict already has a key (`"id" not in metadata`). -/
def hasStrKey (m : List (String × JVal)) (k : String) : Bool :=
  (lookupField k m).isSome

/-- Skill enrichment (build-website.py lines 66-87): on a readable skill file
with a front-matter block that parses to a dict, set `id` and
`allowed_tools`; any raise inside the `try` is caught, keeping `md`. -/
def skillEnrich (env : Env) (nm : JVal) (md : List (String × JVal)) :
    List (String × JVal) :=
  let p := "helpers/skills/" ++ pyStr nm ++ "/SKILL.md"
  if env.pathExists p then
    match env.readText p with
    | none => md
    | some content =>
      match extractFrontmatter content with
      | none => md
      | some fm =>
        match env.yamlLoad fm with
        | some (.obj sd) =>
          strDictSet (strDictSet md "id" nm) "allowed_tools"
            ((lookupField "allowed-tools" sd).getD (.str ""))
        | _ => md
  else md

/-- Command enrichment (build-website.py lines 95-131). -/
def commandEnrich (env : Env) (nm : JVal) (md : List (String × JVal)) :
    List (String × JVal) :=
  let p := "helpers/commands/" ++ pyStr nm ++ ".md"
  if env.pathExists p then
    match env.readText p with
    | none => md
    | some content =>
      let fm := match extractFrontmatter content with
        | some fmc => parseSimpleKV fmc
        | none => []
      let md1 := strDictSet md "argument_hint" ((lookupField "argument-hint" fm).getD (.str ""))
      match searchSynopsis content.data with
      | some cap =>
        let syn := pyStripWs ⟨cap⟩
        if syn.isEmpty then md1 else strDictSet md1 "synopsis" (.str syn)
      | none => md1
  else md

/-- Agent enrichment (build-website.py lines 139-161). -/
def agentEnrich (env : Env) (nm : JVal) (md : List (String × JVal)) :
    List (String × JVal) :=
  let p := "helpers/agents/" ++ pyStr nm ++ ".md"
  if env.pathExists p then
    match env.readText p with
    | none => md
    | some content =>
      match extractFrontmatter content with
      | none => md
      | some fm =>
        match env.yamlLoad fm with
        | some (.obj ad) =>
          strDictSet (strDictSet (strDictSet md "id" nm) "tools"
            ((lookupField "tools" ad).getD (.str ""))) "model"
            ((lookupField "model" ad).getD (.str ""))
        | _ => md
  else md

/-- The gem-matching loop of build-website.py lines 193-197: first gem whose
kebab-cased title equals the tool name; non-dict gems and truthy non-string
titles raise (caught by the caller). -/
def findGemLink (toolName : JVal) : List JVal → Except PyErr JVal
  | [] => .ok (.str "")
  | g :: gs => do
    let title ← pyGetD g "title" (.str "")
    if pyTruthy title then
      match title with
      | .str ts =>
        if pyEq (.str (title_to_kebab_case ts)) toolName then pyGetD g "link" (.str "")
        else findGemLink toolName gs
      | v => .error (.attributeError
          (pyQuote ++ typeName v ++ pyQuote ++ " object has no attribute "
            ++ pyQuote ++ "lower" ++ pyQuote))
    else findGemLink toolName gs

/-- Gem link resolution (build-website.py lines 171-199): any raise inside
the `try` is caught at line 198, leaving the link empty. -/
def gemLink (env : Env) (toolName : JVal) : JVal :=
  let p := "helpers/gems/gems.yaml"
  if env.pathExists p then
    match env.readText p with
    | none => .str ""
    | some content =>
      match env.yamlLoad content with
      | none => .str ""
      | some (.obj gfs) =>
        match pyIter ((lookupField "gems" gfs).getD (.list [])) with
        | .ok gems =>
          match findGemLink toolName gems with
          | .ok link => link
          | .error _ => .str ""
        | .error _ => .str ""
      | some _ => .str ""
  else .str ""

/-- get_tool_metadata (build-website.py lines 54-207). -/
def get_tool_metadata (env : Env) (tool : List (String × JVal)) :
    Except PyErr (List (String × JVal)) := do
  let nm ← pyGetItem (.obj tool) "name"
  let desc ← pyGetItem (.obj tool) "description"
  let cat ← pyGetItem (.obj tool) "category"
  let fp ← get_tool_file_path tool
  let md := [("name", nm), ("description", desc), ("category", cat), ("file_path", JVal.str fp)]
  let ty ← pyGetItem (.obj tool) "type"
  if pyEq ty (.str "skill") then
    let md1 := skillEnrich env nm md
    let md2 := if hasStrKey md1 "id" then md1 else strDictSet md1 "id" nm
    return if hasStrKey md2 "allowed_tools" then md2 else strDictSet md2 "allowed_tools" (.str "")
  else if pyEq ty (.str "command") then
    let md1 := commandEnrich env nm md
    let md2 := if hasStrKey md1 "synopsis" then md1
      else strDictSet md1 "synopsis" (.str ("/" ++ pyStr nm))
    return if hasStrKey md2 "argument_hint" then md2 else strDictSet md2 "argument_hint" (.str "")
  else if pyEq ty (.str "agent") then
    let md1 := agentEnrich env nm md
    let md2 := if hasStrKey md1 "id" then md1 else strDictSet md1 "id" nm
    let md3 := if hasStrKey md2 "tools" then md2 else strDictSet md2 "tools" (.str "")
    return if hasStrKey md3 "model" then md3 else strDictSet md3 "model" (.str "")
  else if pyEq ty (.str "gem") then
    return strDictSet md "link" (gemLink env nm)
  else
    return md

/-- The website data document (build-website.py lines 219-224), with the
four type-partitioned tool arrays. -/
structure WebsiteData where
  name : String
  owner : String
  categories : JVal
  gemini : List (List (String × JVal))
  skills : List (List (String × JVal))
  commands : List (List (String × JVal))
  agents : List (List (String × JVal))

/-- `required_keys` of build-website.py line 233 (a list literal, iterated in
this order). -/
def websiteRequiredKeys : List String := ["name", "type", "description", "category"]

/-- The per-tool loop of build_website_data (build-website.py lines 227-249):
skip non-dict entries and entries missing required keys (warning only),
enrich the rest, and partition by type; unknown types are dropped. -/
def processTools (env : Env) : List JVal →
    Except PyErr (List (List (String × JVal)) × List (List (String × JVal)) ×
      List (List (String × JVal)) × List (List (String × JVal)))
  | [] => .ok ([], [], [], [])
  | t :: ts =>
    match t with
    | .obj tfs =>
      if (websiteRequiredKeys.filter (fun k => !(lookupField k tfs).isSome)).isEmpty then do
        let md ← get_tool_metadata env tfs
        let ty ← pyGetItem (.obj tfs) "type"
        let (g, s, c, a) ← processTools env ts
        if pyEq ty (.str "skill") then return (g, md :: s, c, a)
        else if pyEq ty (.str "command") then return (g, s, md :: c, a)
        else if pyEq ty (.str "agent") then return (g, s, c, md :: a)
        else if pyEq ty (.str "gem") then return (md :: g, s, c, a)
        else return (g, s, c, a)
      else processTools env ts
    | _ => processTools env ts

/-- build_website_data (build-website.py lines 210-251).  Loading
`tools.json` is I/O; the parsed document is passed in. -/
def build_website_data (env : Env) (toolsConfig : List (String × JVal)) :
    Except PyErr WebsiteData := do
  let cats ← pyGetItem (.obj toolsConfig) "categories"
  let toolsV ← pyGetItem (.obj toolsConfig) "tools"
  let items ← pyIter toolsV
  let (g, s, c, a) ← processTools env items
  return { name := "odh-ai-helpers", owner := "ODH",
           categories := .obj [("categories", cats)],
           gemini := g, skills := s, commands := c, agents := a }

/-! Definitions used only to state theorems. -/

/-- The no-adjacent-hyphens relation of a collapsed character list. -/
def noHH (a b : Char) : Prop := ¬(a = '-' ∧ b = '-')

/-- The payload of a successful validation step, empty on an exception; used
only to state section decompositions. -/
def okD (e : Except PyErr (List String)) : List String := e.toOption.getD []

/-- The referenced-categories set computed by validate_categories, empty on
an exception; used only to state section decompositions. -/
def catRefsOf (tl : List JVal) : List String :=
  ((categoriesTypeAndRefsAux tl 0 []).toOption.getD ([], [])).2

/-- The error-list shape asserted by the specification's ordering sentence:
per-tool schema errors, then name-uniqueness errors, then category-structure
errors, then category-closure errors (missing sorted, then unused sorted),
then filesystem-agreement errors — with no other error classes. -/
def specClaimedErrorList (toolsData : List (String × JVal))
    (fsView : Option (List (String × String))) : List String :=
  let tl := match (lookupField "tools" toolsData).getD (.list []) with
    | .list l => l
    | _ => []
  let cats := match (lookupField "categories" toolsData).getD (.obj []) with
    | .obj c => c
    | _ => []
  okD (perToolErrors tl 0) ++ okD (validate_tool_names_unique tl)
    ++ validate_category_structure cats
    ++ (missingCategories (catRefsOf tl) cats).map missingCatMsg
    ++ (unusedCategories (catRefsOf tl) cats).map unusedCatMsg
    ++ okD (match fsView with
        | none => .ok []
        | some fs => validate_filesystem_tools_in_json toolsData fs)

/-- Whether a catalog entry is a dict whose `name` field is the string
`nm`; used only to state counting theorems. -/
def hasNameStr (nm : String) : JVal → Bool
  | .obj fs =>
    match lookupField "name" fs with
    | some (.str s) => s == nm
    | _ => false
  | _ => false

/-- The category strings referenced by the catalog's tools: every non-empty
string `category` value of a dict entry, in order with multiplicity; used
only to state theorems (the claims' notion of a referenced category). -/
def refCats (tools : List JVal) : List String :=
  tools.filterMap (fun t =>
    match t with
    | .obj fs =>
      match lookupField "category" fs with
      | some (.str s) => if s.isEmpty then none else some s
      | _ => none
    | _ => none)

/-- The normalized marketplace record an external-plugin entry contributes:
`none` for entries without both a name and a source (they are skipped), the
name/defaulted-description/source projection otherwise; used only to state
theorems. -/
def pluginNorm : JVal → Option (List (String × JVal))
  | .obj efs =>
    match lookupField "name" efs, lookupField "source" efs with
    | some n, some src =>
      some [("name", n),
            ("description",
              (lookupField "description" efs).getD (.str (pyStr n ++ " plugin"))),
            ("source", src)]
    | _, _ => none
  | _ => none

/-- An asset tree with no files at all: every existence check fails.  Used to
state build-website theorems. -/
def emptyEnv : Env :=
  { pathExists := fun _ => false, readText := fun _ => none, yamlLoad := fun _ => none }

/-- A well-formed ToolRecord as the claims describe it: exactly the four
required fields, all values non-empty non-whitespace strings, a valid type.
Used only to state theorems. -/
def ToolRecordOk (fs : List (String × JVal)) : Prop :=
  (∀ k ∈ fs.map Prod.fst, k ∈ requiredToolFields)
  ∧ (fs.map Prod.fst).Nodup
  ∧ (∀ f ∈ requiredToolFields,
      ∃ s, lookupField f fs = some (.str s) ∧ (pyStripWs s).isEmpty = false)
  ∧ (∃ ty, lookupField "type" fs = some (.str ty) ∧ ty ∈ validToolTypes)

/-- A well-formed CategoryRecord: an object with non-empty string name and
description.  Used only to state theorems. -/
def CatRecordOk (v : JVal) : Prop :=
  ∃ gs, v = .obj gs
    ∧ (∃ s, lookupField "name" gs = some (.str s) ∧ (pyStripWs s).isEmpty = false)
    ∧ (∃ s, lookupField "description" gs = some (.str s) ∧ (pyStripWs s).isEmpty = false)

/-- The string name of a catalog entry, when it is a record with one.  Used
only to state theorems. -/
def toolNameOf : JVal → Option String
  | .obj fs =>
    match lookupField "name" fs with
    | some (.str s) => some s
    | _ => none
  | _ => none

/-- The string name and type of a catalog entry, when present.  Used only to
state theorems. -/
def toolNameTypeOf : JVal → Option (String × String)
  | .obj fs =>
    match lookupField "name" fs, lookupField "type" fs with
    | some (.str n), some (.str ty) => some (n, ty)
    | _, _ => none
  | _ => none

/-! Theorems.  First, character-level facts about ASCII lowering and the slug
character class. -/

@[simp] theorem pyBind_ok {α β : Type} (x : α) (f : α → Except PyErr β) :
    (Except.ok x >>= f) = f x := rfl

@[simp] theorem pyBind_error {α β : Type} (e : PyErr) (f : α → Except PyErr β) :
    ((Except.error e : Except PyErr α) >>= f) = .error e := rfl

@[simp] theorem pyPure_eq {α : Type} (x : α) : (pure x : Except PyErr α) = .ok x := rfl

theorem wrap_inj (p s : String) {a b : String} (h : p ++ a ++ s = p ++ b ++ s) : a = b := by
  have hd := congrArg String.data h
  simp only [String.data_append, List.append_assoc] at hd
  exact String.ext (List.append_cancel_right (List.append_cancel_left hd))

theorem strLast_append (a b : String) (h : b.data ≠ []) :
    (a ++ b).data.getLast? = b.data.getLast? := by
  rw [String.data_append]
  exact List.getLast?_append_of_ne_nil _ h

theorem pyLowerChar_fix0 (c : Char) (h : isAsciiUpper c = false) : pyLowerChar c = c := by
  simp [pyLowerChar, h]

theorem charToNat_ofNat (n : Nat) (h : n.isValidChar) : (Char.ofNat n).toNat = n := by
  simp [Char.ofNat, dif_pos h, Char.ofNatAux, Char.toNat, UInt32.toNat, BitVec.toNat_ofNatLt]

theorem charLe_iff (c d : Char) : (c ≤ d) ↔ c.toNat ≤ d.toNat := by
  rw [Char.le_def, UInt32.le_def, BitVec.le_def]
  exact Iff.rfl

theorem isAsciiUpper_iff (c : Char) : isAsciiUpper c = true ↔ 65 ≤ c.toNat ∧ c.toNat ≤ 90 := by
  rw [isAsciiUpper, Bool.and_eq_true, decide_eq_true_iff, decide_eq_true_iff,
    charLe_iff, charLe_iff, show ('A' : Char).toNat = 65 from rfl,
    show ('Z' : Char).toNat = 90 from rfl]

theorem toNat_pyLowerChar_of_upper (c : Char) (h : isAsciiUpper c = true) :
    (pyLowerChar c).toNat = c.toNat + 32 := by
  have hb := (isAsciiUpper_iff c).1 h
  have hv : (c.toNat + 32).isValidChar := Or.inl (by omega)
  simp [pyLowerChar, h, charToNat_ofNat _ hv]

theorem pyLowerChar_not_upper (c : Char) : isAsciiUpper (pyLowerChar c) = false := by
  cases h : isAsciiUpper c with
  | false => rwa [pyLowerChar_fix0 c h]
  | true =>
    have hb := (isAsciiUpper_iff c).1 h
    have ht := toNat_pyLowerChar_of_upper c h
    rcases h2 : isAsciiUpper (pyLowerChar c) with _ | _
    · rfl
    · exfalso
      have := (isAsciiUpper_iff _).1 h2
      omega

theorem pyLowerChar_idem (c : Char) : pyLowerChar (pyLowerChar c) = pyLowerChar c :=
  pyLowerChar_fix0 _ (pyLowerChar_not_upper c)

theorem slugKeep_iff (c : Char) : slugKeep c = true ↔
    (97 ≤ c.toNat ∧ c.toNat ≤ 122) ∨ (65 ≤ c.toNat ∧ c.toNat ≤ 90) ∨
    (48 ≤ c.toNat ∧ c.toNat ≤ 57) := by
  rw [slugKeep, Bool.or_eq_true, Bool.or_eq_true, Bool.and_eq_true, Bool.and_eq_true,
    Bool.and_eq_true]
  rw [decide_eq_true_iff, decide_eq_true_iff, decide_eq_true_iff, decide_eq_true_iff,
    decide_eq_true_iff, decide_eq_true_iff]
  rw [charLe_iff, charLe_iff, charLe_iff, charLe_iff, charLe_iff, charLe_iff]
  rw [show ('a' : Char).toNat = 97 from rfl, show ('z' : Char).toNat = 122 from rfl,
    show ('A' : Char).toNat = 65 from rfl, show ('Z' : Char).toNat = 90 from rfl,
    show ('0' : Char).toNat = 48 from rfl, show ('9' : Char).toNat = 57 from rfl]
  tauto

theorem slugKeep_pyLowerChar (c : Char) (h : slugKeep c = true) :
    slugKeep (pyLowerChar c) = true := by
  cases hu : isAsciiUpper c with
  | false => rwa [pyLowerChar_fix0 c hu]
  | true =>
    have hb := (isAsciiUpper_iff c).1 hu
    have ht := toNat_pyLowerChar_of_upper c hu
    exact (slugKeep_iff _).2 (Or.inl (by omega))

theorem ne_of_toNat_ne {c d : Char} (h : c.toNat ≠ d.toNat) : c ≠ d :=
  fun he => h (congrArg Char.toNat he)

theorem slugKeep_not_ws (c : Char) (h : slugKeep c = true) : isPyWs c = false := by
  have hb := (slugKeep_iff c).1 h
  have h1 : c ≠ ' ' := ne_of_toNat_ne (by rw [show (' ' : Char).toNat = 32 from rfl]; omega)
  have h2 : c ≠ '\t' := ne_of_toNat_ne (by rw [show ('\t' : Char).toNat = 9 from rfl]; omega)
  have h3 : c ≠ '\n' := ne_of_toNat_ne (by rw [show ('\n' : Char).toNat = 10 from rfl]; omega)
  have h4 : c ≠ '\r' := ne_of_toNat_ne (by rw [show ('\r' : Char).toNat = 13 from rfl]; omega)
  have h5 : c ≠ '\x0b' := ne_of_toNat_ne (by rw [show ('\x0b' : Char).toNat = 11 from rfl]; omega)
  have h6 : c ≠ '\x0c' := ne_of_toNat_ne (by rw [show ('\x0c' : Char).toNat = 12 from rfl]; omega)
  simp [isPyWs, h1, h2, h3, h4, h5, h6]

theorem slugKeep_ne_hyphen (c : Char) (h : slugKeep c = true) : c ≠ '-' := by
  have hb := (slugKeep_iff c).1 h
  exact ne_of_toNat_ne (by rw [show ('-' : Char).toNat = 45 from rfl]; omega)

/-! Facts about run collapsing and stripping. -/

theorem mem_collapseRunsAux {bad : Char → Bool} :
    ∀ {b : Bool} {l : List Char} {c : Char}, c ∈ collapseRunsAux bad b l →
      c = '-' ∨ (bad c = false ∧ c ∈ l) := by
  intro b l
  induction l generalizing b with
  | nil => intro c h; simp [collapseRunsAux] at h
  | cons x xs ih =>
    intro c h
    by_cases hx : bad x
    · cases b with
      | true =>
        simp only [collapseRunsAux, hx, if_true] at h
        rcases ih h with h1 | h2
        · exact Or.inl h1
        · exact Or.inr ⟨h2.1, List.mem_cons_of_mem _ h2.2⟩
      | false =>
        simp only [collapseRunsAux, hx, if_true] at h
        rcases List.mem_cons.1 h with h1 | h1
        · exact Or.inl h1
        · rcases ih h1 with h2 | h3
          · exact Or.inl h2
          · exact Or.inr ⟨h3.1, List.mem_cons_of_mem _ h3.2⟩
    · simp only [collapseRunsAux, hx, if_false, Bool.false_eq_true] at h
      rcases List.mem_cons.1 h with h1 | h1
      · subst h1
        exact Or.inr ⟨by simpa using hx, List.mem_cons_self _ _⟩
      · rcases ih h1 with h2 | h3
        · exact Or.inl h2
        · exact Or.inr ⟨h3.1, List.mem_cons_of_mem _ h3.2⟩

theorem head_collapseRunsAux_true {bad : Char → Bool} (hbad : bad '-' = true) :
    ∀ l : List Char, (collapseRunsAux bad true l).head? ≠ some '-' := by
  intro l
  induction l with
  | nil => simp [collapseRunsAux]
  | cons x xs ih =>
    by_cases hx : bad x
    · simpa [collapseRunsAux, hx] using ih
    · simp only [collapseRunsAux, hx, if_false, Bool.false_eq_true, List.head?_cons]
      intro h
      rw [Option.some_inj] at h
      subst h
      rw [hbad] at hx
      exact hx rfl

theorem chain_collapseRunsAux {bad : Char → Bool} (hbad : bad '-' = true) :
    ∀ (b : Bool) (l : List Char), List.Chain' noHH (collapseRunsAux bad b l) := by
  intro b l
  induction l generalizing b with
  | nil => simp [collapseRunsAux]
  | cons x xs ih =>
    by_cases hx : bad x
    · cases b with
      | true => simpa [collapseRunsAux, hx] using ih true
      | false =>
        simp only [collapseRunsAux, hx, if_true]
        refine List.chain'_cons'.2 ⟨?_, ih true⟩
        intro y hy hcon
        exact head_collapseRunsAux_true hbad xs (by rw [hy, hcon.2])
    · simp only [collapseRunsAux, hx, if_false, Bool.false_eq_true]
      refine List.chain'_cons'.2 ⟨?_, ih false⟩
      intro y hy hcon
      rw [hcon.1, hbad] at hx
      exact hx rfl

theorem collapseRunsAux_id {bad : Char → Bool} (hbad : bad '-' = true) :
    ∀ l : List Char, (∀ c ∈ l, bad c = false ∨ c = '-') → List.Chain' noHH l →
      collapseRunsAux bad false l = l ∧
        (l.head? ≠ some '-' → collapseRunsAux bad true l = l) := by
  intro l
  induction l with
  | nil => simp [collapseRunsAux]
  | cons x xs ih =>
    intro hmem hchain
    have ihx := ih (fun c hc => hmem c (List.mem_cons_of_mem _ hc)) hchain.tail
    by_cases hx : x = '-'
    · subst hx
      have hhead : xs.head? ≠ some '-' := by
        intro h
        have := (List.chain'_cons'.1 hchain).1 '-' h
        exact this ⟨rfl, rfl⟩
      constructor
      · simp [collapseRunsAux, hbad, ihx.2 hhead]
      · intro h
        simp at h
    · have hbx : bad x = false := by
        rcases hmem x (List.mem_cons_self _ _) with h | h
        · exact h
        · exact absurd h hx
      constructor
      · simp only [collapseRunsAux, hbx, if_false, Bool.false_eq_true, ihx.1]
      · intro _
        simp only [collapseRunsAux, hbx, if_false, Bool.false_eq_true, ihx.1]

theorem head_dropWhile_false (p : Char → Bool) :
    ∀ l : List Char, ∀ x, (l.dropWhile p).head? = some x → p x = false := by
  intro l
  induction l with
  | nil => intro x h; simp [List.dropWhile] at h
  | cons a as ih =>
    intro x h
    by_cases ha : p a
    · exact ih x (by simpa [List.dropWhile, ha] using h)
    · simp only [List.dropWhile, ha, if_false, Bool.false_eq_true, List.head?_cons,
        Option.some_inj] at h
      subst h
      simpa using ha

theorem dropWhile_eq_self_of_head (p : Char → Bool) (l : List Char)
    (h : ∀ x, l.head? = some x → p x = false) : l.dropWhile p = l := by
  cases l with
  | nil => rfl
  | cons a as => simp [List.dropWhile, h a rfl]

theorem getLast?_dropWhile_of_ne_nil (p : Char → Bool) :
    ∀ l : List Char, l.dropWhile p ≠ [] → (l.dropWhile p).getLast? = l.getLast?
  | [], h => by simp [List.dropWhile] at h
  | a :: as, h => by
    by_cases ha : p a
    · have has : as.dropWhile p ≠ [] := by simpa [List.dropWhile, ha] using h
      have hasne : as ≠ [] := by
        intro he
        rw [he] at has
        simp [List.dropWhile] at has
      obtain ⟨b, bs, rfl⟩ := List.exists_cons_of_ne_nil hasne
      rw [show (a :: b :: bs).dropWhile p = (b :: bs).dropWhile p by
          simp [List.dropWhile, ha],
        getLast?_dropWhile_of_ne_nil p (b :: bs) has, List.getLast?_cons_cons]
    · simp [List.dropWhile, ha]

theorem mem_stripChar {c x : Char} {l : List Char} (h : x ∈ stripChar c l) : x ∈ l := by
  unfold stripChar at h
  rw [List.mem_reverse] at h
  have h1 := (List.dropWhile_sublist (l := (l.dropWhile (· == c)).reverse) (· == c)).subset h
  rw [List.mem_reverse] at h1
  exact (List.dropWhile_sublist (· == c)).subset h1

theorem stripChar_head_ne (c : Char) (l : List Char) :
    ∀ x, (stripChar c l).head? = some x → x ≠ c := by
  intro x h
  unfold stripChar at h
  rw [List.head?_reverse] at h
  rcases he : (l.dropWhile (· == c)).reverse.dropWhile (· == c) with _ | ⟨b, bs⟩
  · rw [he] at h; simp at h
  · have hne : (l.dropWhile (· == c)).reverse.dropWhile (· == c) ≠ [] := by rw [he]; simp
    rw [getLast?_dropWhile_of_ne_nil _ _ hne, List.getLast?_reverse] at h
    have := head_dropWhile_false (· == c) l x h
    simpa using this

theorem stripChar_getLast_ne (c : Char) (l : List Char) :
    ∀ x, (stripChar c l).getLast? = some x → x ≠ c := by
  intro x h
  unfold stripChar at h
  rw [List.getLast?_reverse] at h
  have := head_dropWhile_false (· == c) (l.dropWhile (· == c)).reverse x h
  simpa using this

theorem stripChar_eq_self (c : Char) (l : List Char)
    (h1 : ∀ x, l.head? = some x → x ≠ c) (h2 : ∀ x, l.getLast? = some x → x ≠ c) :
    stripChar c l = l := by
  unfold stripChar
  have e1 : l.dropWhile (· == c) = l :=
    dropWhile_eq_self_of_head _ _ (fun x hx => by simpa using h1 x hx)
  rw [e1]
  have e2 : l.reverse.dropWhile (· == c) = l.reverse :=
    dropWhile_eq_self_of_head _ _ (fun x hx => by
      rw [List.head?_reverse] at hx
      simpa using h2 x hx)
  rw [e2, List.reverse_reverse]

theorem noHH_flip {a b : Char} (h : noHH a b) : noHH b a := by
  unfold noHH at h ⊢
  tauto

theorem chain_stripChar (c : Char) (l : List Char) (h : List.Chain' noHH l) :
    List.Chain' noHH (stripChar c l) := by
  unfold stripChar
  have h1 : List.Chain' noHH (l.dropWhile (· == c)) :=
    h.suffix (List.dropWhile_suffix _)
  have h2 : List.Chain' noHH (l.dropWhile (· == c)).reverse := by
    rw [List.chain'_reverse]
    exact h1.imp (fun a b hab => noHH_flip hab)
  have h3 := h2.suffix (List.dropWhile_suffix (l := (l.dropWhile (· == c)).reverse) (· == c))
  rw [List.chain'_reverse]
  exact h3.imp (fun a b hab => noHH_flip hab)

theorem map_eq_self_of_mem {f : Char → Char} :
    ∀ l : List Char, (∀ x ∈ l, f x = x) → l.map f = l
  | [], _ => rfl
  | a :: as, h => by
    rw [List.map_cons, h a (List.mem_cons_self _ _),
      map_eq_self_of_mem as (fun x hx => h x (List.mem_cons_of_mem _ hx))]

theorem slug_out_props (t : String) :
    (∀ c ∈ (title_to_slug t).data, (slugKeep c = true ∧ isAsciiUpper c = false) ∨ c = '-')
    ∧ List.Chain' noHH (title_to_slug t).data
    ∧ (∀ x, (title_to_slug t).data.head? = some x → x ≠ '-')
    ∧ (∀ x, (title_to_slug t).data.getLast? = some x → x ≠ '-') := by
  have hbad : (fun c => !slugKeep c) '-' = true := by decide
  refine ⟨?_, ?_, ?_, ?_⟩
  · intro c hc
    have h1 := mem_stripChar hc
    rcases mem_collapseRunsAux h1 with h2 | ⟨h3, h4⟩
    · exact Or.inr h2
    · left
      refine ⟨by simpa using h3, ?_⟩
      rcases List.mem_map.1 h4 with ⟨a, _, rfl⟩
      exact pyLowerChar_not_upper a
  · exact chain_stripChar _ _ (chain_collapseRunsAux hbad false _)
  · exact stripChar_head_ne _ _
  · exact stripChar_getLast_ne _ _

theorem title_to_slug_idem (t : String) :
    title_to_slug (title_to_slug t) = title_to_slug t := by
  obtain ⟨hmem, hchain, hh, hl⟩ := slug_out_props t
  have hbad : (fun c => !slugKeep c) '-' = true := by decide
  have hA : (title_to_slug t).data.map pyLowerChar = (title_to_slug t).data := by
    refine map_eq_self_of_mem _ (fun x hx => ?_)
    rcases hmem x hx with ⟨_, hup⟩ | rfl
    · exact pyLowerChar_fix0 _ hup
    · exact pyLowerChar_fix0 _ (by decide)
  have hB : collapseRunsAux (fun c => !slugKeep c) false (title_to_slug t).data
      = (title_to_slug t).data := by
    refine (collapseRunsAux_id hbad _ (fun c hc => ?_) hchain).1
    rcases hmem c hc with ⟨hk, _⟩ | rfl
    · exact Or.inl (by simp [hk])
    · exact Or.inr rfl
  have hC : stripChar '-' (title_to_slug t).data = (title_to_slug t).data :=
    stripChar_eq_self _ _ hh hl
  show String.mk (stripChar '-' (collapseRunsAux (fun c => !slugKeep c) false
    ((title_to_slug t).data.map pyLowerChar))) = title_to_slug t
  rw [hA, hB, hC]

/-- C8: the scanner's gem-title slugification is idempotent; on the
documented examples it yields "my-cool-gem" and "multi-space"; and every slug
consists only of characters from [a-z0-9] (lowercase: never an ASCII capital)
and separating hyphens, with no two adjacent hyphens and no leading or
trailing hyphen — i.e. every maximal run of characters outside [a-z0-9] has
been replaced by a single hyphen and boundary hyphens stripped. -/
theorem c8_slug_idempotent_examples_shape :
    (∀ t : String, title_to_slug (title_to_slug t) = title_to_slug t)
    ∧ title_to_slug "My Cool Gem!" = "my-cool-gem"
    ∧ title_to_slug "  multi   space " = "multi-space"
    ∧ (∀ t : String,
        (∀ c ∈ (title_to_slug t).data,
          (slugKeep c = true ∧ isAsciiUpper c = false) ∨ c = '-')
        ∧ List.Chain' noHH (title_to_slug t).data
        ∧ (∀ x, (title_to_slug t).data.head? = some x → x ≠ '-')
        ∧ (∀ x, (title_to_slug t).data.getLast? = some x → x ≠ '-')) :=
  ⟨title_to_slug_idem, by decide, by decide, slug_out_props⟩

theorem c10class_pyLowerChar (c : Char) (h : slugKeep c = true ∨ c = ' ' ∨ c = '-') :
    slugKeep (pyLowerChar c) = true ∨ pyLowerChar c = ' ' ∨ pyLowerChar c = '-' := by
  rcases h with h | rfl | rfl
  · exact Or.inl (slugKeep_pyLowerChar c h)
  · exact Or.inr (Or.inl (pyLowerChar_fix0 _ (by decide)))
  · exact Or.inr (Or.inr (pyLowerChar_fix0 _ (by decide)))

theorem bad_agree_on_class (c : Char) (h : slugKeep c = true ∨ c = ' ' ∨ c = '-') :
    (!slugKeep c) = (isPyWs c || c == '-') := by
  rcases h with h | rfl | rfl
  · rw [h, slugKeep_not_ws c h]
    simp [slugKeep_ne_hyphen c h]
  · decide
  · decide

theorem collapse_agree_on_class :
    ∀ (l : List Char) (b : Bool), (∀ c ∈ l, slugKeep c = true ∨ c = ' ' ∨ c = '-') →
      collapseRunsAux (fun c => !slugKeep c) b l
        = collapseRunsAux (fun c => isPyWs c || c == '-') b l
  | [], _, _ => rfl
  | a :: as, b, h => by
    have ha := bad_agree_on_class a (h a (List.mem_cons_self _ _))
    have ih := fun b2 => collapse_agree_on_class as b2
      (fun c hc => h c (List.mem_cons_of_mem _ hc))
    simp only [collapseRunsAux, ha]
    split
    · split
      · exact ih true
      · rw [ih true]
    · rw [ih false]

theorem keepW_of_class (c : Char) (h : slugKeep c = true ∨ c = ' ' ∨ c = '-') :
    (isPyWordChar c || isPyWs c || c == '-') = true := by
  rcases h with h | rfl | rfl
  · simp [isPyWordChar, h]
  · decide
  · decide

/-- C10 counterexample: the validator's slugification and the website
builder's kebab-casing disagree on an underscore, which `[^a-zA-Z0-9]+`
collapses to a hyphen but `\w` preserves. -/
theorem c10_counterexample : title_to_slug "a_b" ≠ title_to_kebab_case "a_b" := by decide

/-- C10 (amended): title_to_slug and title_to_kebab_case agree on every title
whose characters are ASCII letters, digits, spaces and hyphens; they differ
in general (see the counterexample). -/
theorem c10_slug_kebab_agree_on_common_class (t : String)
    (h : ∀ c ∈ t.data, slugKeep c = true ∨ c = ' ' ∨ c = '-') :
    title_to_slug t = title_to_kebab_case t := by
  unfold title_to_slug title_to_kebab_case
  have hlow : ∀ c ∈ t.data.map pyLowerChar, slugKeep c = true ∨ c = ' ' ∨ c = '-' := by
    intro c hc
    rcases List.mem_map.1 hc with ⟨a, ha, rfl⟩
    exact c10class_pyLowerChar a (h a ha)
  have hfilter : (t.data.map pyLowerChar).filter
      (fun c => isPyWordChar c || isPyWs c || c == '-') = t.data.map pyLowerChar :=
    List.filter_eq_self.2 (fun c hc => keepW_of_class c (hlow c hc))
  rw [hfilter, collapse_agree_on_class _ false hlow]

/-- C10 witness: a concrete title in the common class on which the two
slugifications agree. -/
theorem c10_witness :
    (∀ c ∈ ("My Cool Gem" : String).data, slugKeep c = true ∨ c = ' ' ∨ c = '-')
    ∧ title_to_slug "My Cool Gem" = title_to_kebab_case "My Cool Gem" :=
  ⟨by decide, c10_slug_kebab_agree_on_common_class "My Cool Gem" (by decide)⟩

/-! Claims C1 and C5: behavior of the validator on malformed tool entries. -/

/-- C1 (code bug): on a catalog whose tools list contains a non-dict entry,
validate_tools_json raises AttributeError inside validate_tool_names_unique
(line 239 calls tool.get on every raw entry) even though the per-tool loop
(lines 298-303) explicitly guards non-dict entries, collects a "must be an
object" error for them and continues; no error list is returned, contradicting
the never-raises contract. -/
theorem c1_crash_on_non_dict_tool :
    validate_tools_json [("tools", .list [.num 42]), ("categories", .obj [])] none
      = .error (.attributeError (pyQuote ++ "int" ++ pyQuote
          ++ " object has no attribute " ++ pyQuote ++ "get" ++ pyQuote)) := rfl

theorem dupNameMsg_inj {a b : String} (h : dupNameMsg a = dupNameMsg b) : a = b :=
  wrap_inj ("Duplicate tool name: " ++ pyQuote) pyQuote
    (by simpa [dupNameMsg, String.append_assoc] using h)

theorem c5_aux (nm : String) (hnm : nm ≠ "") :
    ∀ (tools : List JVal) (seen : List JVal),
      (∀ t ∈ tools, ∃ fs, t = JVal.obj fs) →
      (∀ fs v, JVal.obj fs ∈ tools → lookupField "name" fs = some v →
        v = .null ∨ ∃ s, v = .str s) →
      ∃ l, validateToolNamesUniqueAux tools seen = .ok l ∧
        l.count (dupNameMsg nm) = tools.countP (hasNameStr nm)
          - (if pyInSet (.str nm) seen then 0 else 1)
  | [], seen, _, _ => by
    refine ⟨[], rfl, ?_⟩
    simp
  | t :: ts, seen, hobj, hstr => by
    obtain ⟨fs, rfl⟩ := hobj t (List.mem_cons_self _ _)
    have hobj' : ∀ t ∈ ts, ∃ fs, t = JVal.obj fs :=
      fun t ht => hobj t (List.mem_cons_of_mem _ ht)
    have hstr' : ∀ fs v, JVal.obj fs ∈ ts → lookupField "name" fs = some v →
        v = .null ∨ ∃ s, v = .str s :=
      fun fs v hf hv => hstr fs v (List.mem_cons_of_mem _ hf) hv
    rcases hlook : lookupField "name" fs with _ | v
    · obtain ⟨l, hl, hc⟩ := c5_aux nm hnm ts seen hobj' hstr'
      have hcnt : hasNameStr nm (JVal.obj fs) = false := by simp [hasNameStr, hlook]
      refine ⟨l, ?_, ?_⟩
      · simp [validateToolNamesUniqueAux, pyGetD, hlook, pyTruthy, hl]
      · rw [hc, List.countP_cons, hcnt]
        simp
    · rcases hstr fs v (List.mem_cons_self _ _) hlook with rfl | ⟨s, rfl⟩
      · obtain ⟨l, hl, hc⟩ := c5_aux nm hnm ts seen hobj' hstr'
        have hcnt : hasNameStr nm (JVal.obj fs) = false := by simp [hasNameStr, hlook]
        refine ⟨l, ?_, ?_⟩
        · simp [validateToolNamesUniqueAux, pyGetD, hlook, pyTruthy, hl]
        · rw [hc, List.countP_cons, hcnt]
          simp
      · by_cases hs0 : s = ""
        · subst hs0
          obtain ⟨l, hl, hc⟩ := c5_aux nm hnm ts seen hobj' hstr'
          have hcnt : hasNameStr nm (JVal.obj fs) = false := by
            simp [hasNameStr, hlook]
            exact fun h => hnm h.symm
          have hf : pyTruthy (JVal.str "") = false := by decide
          refine ⟨l, ?_, ?_⟩
          · simp [validateToolNamesUniqueAux, pyGetD, hlook, hf, hl]
          · rw [hc, List.countP_cons, hcnt]
            simp
        · have hie : s.isEmpty = false := by
            rcases h : s.isEmpty with _ | _
            · rfl
            · exact absurd ((String.isEmpty_iff _).1 h) hs0
          have htr : pyTruthy (.str s) = true := by simp [pyTruthy, hie]
          rcases hmem : pyInSet (JVal.str s) seen with _ | _
          · obtain ⟨l, hl, hc⟩ := c5_aux nm hnm ts ((JVal.str s) :: seen) hobj' hstr'
            refine ⟨l, ?_, ?_⟩
            · simp [validateToolNamesUniqueAux, pyGetD, hlook, htr, pyHashable, hmem, hl]
            · rw [hc]
              by_cases heq : s = nm
              · subst heq
                have h1 : pyInSet (JVal.str s) ((JVal.str s) :: seen) = true := by
                  simp [pyInSet, pyEq]
                have hcnt : hasNameStr s (JVal.obj fs) = true := by
                  simp [hasNameStr, hlook]
                rw [h1, hmem, List.countP_cons, hcnt]
                simp
              · have h1 : pyInSet (JVal.str nm) ((JVal.str s) :: seen)
                    = pyInSet (JVal.str nm) seen := by
                  simp [pyInSet, List.any_cons, pyEq]
                  intro h
                  exact absurd h heq
                have hcnt : hasNameStr nm (JVal.obj fs) = false := by
                  simp [hasNameStr, hlook]
                  exact heq
                rw [h1, List.countP_cons, hcnt]
                simp
          · obtain ⟨l, hl, hc⟩ := c5_aux nm hnm ts seen hobj' hstr'
            refine ⟨dupNameMsg s :: l, ?_, ?_⟩
            · simp [validateToolNamesUniqueAux, pyGetD, hlook, htr, pyHashable, hmem, hl,
                pyStr]
            · by_cases heq : s = nm
              · subst heq
                have hcnt : hasNameStr s (JVal.obj fs) = true := by
                  simp [hasNameStr, hlook]
                rw [List.count_cons_self, hc, hmem, List.countP_cons, hcnt]
                simp
              · have hne2 : dupNameMsg s ≠ dupNameMsg nm := fun h => heq (dupNameMsg_inj h)
                have hcnt : hasNameStr nm (JVal.obj fs) = false := by
                  simp [hasNameStr, hlook]
                  exact heq
                rw [List.count_cons_of_ne (fun h => hne2 h.symm), hc, List.countP_cons, hcnt]
                simp

/-- C5 counterexample: a catalog whose tools are all objects, with the
non-empty name "a" shared by exactly two of them, on which the uniqueness
check nevertheless returns no error list at all: the third tool's name value
is a list, and `name in seen_names` hashes it and raises TypeError, so the
claimed "exactly N-1 duplicate errors" is false as stated. -/
theorem c5_counterexample :
    validate_tool_names_unique
      [.obj [("name", .str "a")], .obj [("name", .str "a")],
        .obj [("name", .list [.num 1])]]
      = .error (.typeError ("unhashable type: " ++ pyQuote ++ "list" ++ pyQuote)) := rfl

set_option linter.unusedVariables false in
/-- C5 (amended): for every catalog whose tools are objects and whose present
name values are strings (or None), and every non-empty name string occurring
as the name of exactly N tools, the uniqueness check succeeds and reports
exactly N-1 duplicate-name errors for that name. -/
theorem c5_duplicate_name_errors (tools : List JVal) (nm : String) (N : Nat)
    (hobj : ∀ t ∈ tools, ∃ fs, t = JVal.obj fs)
    (hstr : ∀ fs v, JVal.obj fs ∈ tools → lookupField "name" fs = some v →
      v = .null ∨ ∃ s, v = .str s)
    (hnm : nm ≠ "") (hN : tools.countP (hasNameStr nm) = N) (h2 : 2 ≤ N) :
    ∃ l, validate_tool_names_unique tools = .ok l
      ∧ l.count (dupNameMsg nm) = N - 1 := by
  obtain ⟨l, hl, hc⟩ := c5_aux nm hnm tools [] hobj hstr
  refine ⟨l, hl, ?_⟩
  rw [hc, hN]
  simp [pyInSet]

/-- C5 witness: three tools named "x" produce exactly two duplicate errors. -/
theorem c5_witness :
    ∃ l, validate_tool_names_unique
        [.obj [("name", .str "x")], .obj [("name", .str "x")],
          .obj [("name", .str "x")]]
        = .ok l ∧ l.count (dupNameMsg "x") = 3 - 1 := by
  refine c5_duplicate_name_errors _ "x" 3 ?_ ?_ (by decide) (by decide) (by omega)
  · intro t ht
    fin_cases ht <;> exact ⟨_, rfl⟩
  · intro fs v hf hv
    fin_cases hf <;>
      · simp [lookupField] at hv
        subst hv
        exact Or.inr ⟨_, rfl⟩

theorem mem_dedupStrsAux : ∀ (l seen : List String) (x : String),
    x ∈ dedupStrsAux l seen ↔ x ∈ l ∧ x ∉ seen
  | [], seen, x => by simp [dedupStrsAux]
  | a :: as, seen, x => by
    by_cases h : seen.contains a
    · have ha : a ∈ seen := List.elem_iff.1 h
      rw [show dedupStrsAux (a :: as) seen = dedupStrsAux as seen by
        simp only [dedupStrsAux]
        rw [if_pos h]]
      rw [mem_dedupStrsAux as seen x]
      constructor
      · rintro ⟨h1, h2⟩
        exact ⟨List.mem_cons_of_mem _ h1, h2⟩
      · rintro ⟨h1, h2⟩
        rcases List.mem_cons.1 h1 with rfl | h3
        · exact absurd ha h2
        · exact ⟨h3, h2⟩
    · have ha : a ∉ seen := fun hm => h (List.elem_iff.2 hm)
      rw [show dedupStrsAux (a :: as) seen = a :: dedupStrsAux as (a :: seen) by
        simp only [dedupStrsAux]
        rw [if_neg h]]
      rw [List.mem_cons, mem_dedupStrsAux as (a :: seen) x]
      constructor
      · rintro (rfl | ⟨h1, h2⟩)
        · exact ⟨List.mem_cons_self _ _, ha⟩
        · exact ⟨List.mem_cons_of_mem _ h1, fun hm => h2 (List.mem_cons_of_mem _ hm)⟩
      · rintro ⟨h1, h2⟩
        rcases List.mem_cons.1 h1 with rfl | h3
        · exact Or.inl rfl
        · by_cases hxa : x = a
          · exact Or.inl hxa
          · exact Or.inr ⟨h3, fun hm => by
              rcases List.mem_cons.1 hm with h4 | h4
              · exact hxa h4
              · exact h2 h4⟩

theorem nodup_dedupStrsAux : ∀ (l seen : List String), (dedupStrsAux l seen).Nodup
  | [], seen => by simp [dedupStrsAux]
  | a :: as, seen => by
    by_cases h : seen.contains a
    · rw [show dedupStrsAux (a :: as) seen = dedupStrsAux as seen by
        simp only [dedupStrsAux]
        rw [if_pos h]]
      exact nodup_dedupStrsAux as seen
    · rw [show dedupStrsAux (a :: as) seen = a :: dedupStrsAux as (a :: seen) by
        simp only [dedupStrsAux]
        rw [if_neg h]]
      refine List.Nodup.cons ?_ (nodup_dedupStrsAux as (a :: seen))
      intro hmem
      exact ((mem_dedupStrsAux as (a :: seen) a).1 hmem).2 (List.mem_cons_self _ _)

theorem mem_dedupStrs (l : List String) (x : String) : x ∈ dedupStrs l ↔ x ∈ l := by
  rw [dedupStrs, mem_dedupStrsAux]
  simp

theorem nodup_dedupStrs (l : List String) : (dedupStrs l).Nodup :=
  nodup_dedupStrsAux l []

theorem mem_setAddStr (l : List String) (s x : String) :
    x ∈ setAddStr l s ↔ x ∈ l ∨ x = s := by
  unfold setAddStr
  by_cases h : l.contains s
  · have hs : s ∈ l := List.elem_iff.1 h
    simp only [h, if_true]
    constructor
    · exact Or.inl
    · rintro (h1 | rfl)
      · exact h1
      · exact hs
  · simp only [h, if_false, Bool.false_eq_true, List.mem_append, List.mem_singleton]

theorem nodup_setAddStr (l : List String) (s : String) (h : l.Nodup) :
    (setAddStr l s).Nodup := by
  unfold setAddStr
  by_cases hc : l.contains s
  · rw [if_pos hc]
    exact h
  · have hs : s ∉ l := fun hm => hc (List.elem_iff.2 hm)
    rw [if_neg hc, List.nodup_append]
    exact ⟨h, List.nodup_singleton s, by simpa using hs⟩

theorem nodupCount {l : List String} (hn : l.Nodup) (c : String) :
    l.count c = if c ∈ l then 1 else 0 := by
  by_cases h : c ∈ l
  · rw [if_pos h]
    exact List.count_eq_one_of_mem hn h
  · rw [if_neg h]
    exact List.count_eq_zero_of_not_mem h

theorem missingCatMsg_last (c : String) :
    (missingCatMsg c).data.getLast? = some 'n' := by
  rw [missingCatMsg, strLast_append _ _ (by decide)]
  decide

theorem unusedCatMsg_last (c : String) :
    (unusedCatMsg c).data.getLast? = some 's' := by
  rw [unusedCatMsg, strLast_append _ _ (by decide)]
  decide

theorem typeName_last (v : JVal) (hn : v ≠ .null) (hs : ∀ s, v ≠ .str s) :
    (typeName v).data.getLast? = some 't' ∨ (typeName v).data.getLast? = some 'l' := by
  cases v with
  | str s => exact absurd rfl (hs s)
  | num n => exact Or.inl (by rw [show typeName (.num n) = "int" from rfl]; decide)
  | bool b => exact Or.inr (by rw [show typeName (.bool b) = "bool" from rfl]; decide)
  | null => exact absurd rfl hn
  | list xs => exact Or.inl (by rw [show typeName (.list xs) = "list" from rfl]; decide)
  | obj fs => exact Or.inl (by rw [show typeName (.obj fs) = "dict" from rfl]; decide)

theorem fieldNotStringMsg_last (x f : String) (v : JVal) (hn : v ≠ .null)
    (hs : ∀ s, v ≠ .str s) :
    (fieldNotStringMsg x f (typeName v)).data.getLast? = some 't'
      ∨ (fieldNotStringMsg x f (typeName v)).data.getLast? = some 'l' := by
  have hne : (typeName v).data ≠ [] := by
    cases v with
    | str s => exact absurd rfl (hs s)
    | num n => rw [show typeName (.num n) = "int" from rfl]; decide
    | bool b => rw [show typeName (.bool b) = "bool" from rfl]; decide
    | null => exact absurd rfl hn
    | list xs => rw [show typeName (.list xs) = "list" from rfl]; decide
    | obj fs => rw [show typeName (.obj fs) = "dict" from rfl]; decide
  rw [fieldNotStringMsg, strLast_append _ _ hne]
  exact typeName_last v hn hs

theorem missingCatMsg_inj {a b : String} (h : missingCatMsg a = missingCatMsg b) :
    a = b :=
  wrap_inj ("Category " ++ pyQuote)
    (pyQuote ++ " is referenced by tools but not defined in categories section")
    (by
      rw [missingCatMsg, missingCatMsg] at h
      simpa [String.append_assoc] using h)

theorem unusedCatMsg_inj {a b : String} (h : unusedCatMsg a = unusedCatMsg b) :
    a = b :=
  wrap_inj ("Category " ++ pyQuote)
    (pyQuote ++ " is defined but not used by any tools")
    (by
      rw [unusedCatMsg, unusedCatMsg] at h
      simpa [String.append_assoc] using h)

theorem refCats_cons_none {fs : List (String × JVal)} {ts : List JVal}
    (h : lookupField "category" fs = none) :
    refCats (JVal.obj fs :: ts) = refCats ts := by
  simp [refCats, List.filterMap_cons, h]

theorem refCats_cons_falsy {fs : List (String × JVal)} {ts : List JVal} {v : JVal}
    (h : lookupField "category" fs = some v) (hv : pyTruthy v = false) :
    refCats (JVal.obj fs :: ts) = refCats ts := by
  cases v with
  | str s =>
    have hie : s.isEmpty = true := by simpa [pyTruthy] using hv
    simp [refCats, List.filterMap_cons, h, hie]
  | num n => simp [refCats, List.filterMap_cons, h]
  | bool b => simp [refCats, List.filterMap_cons, h]
  | null => simp [refCats, List.filterMap_cons, h]
  | list xs => simp [refCats, List.filterMap_cons, h]
  | obj gs => simp [refCats, List.filterMap_cons, h]

theorem refCats_cons_nonstr {fs : List (String × JVal)} {ts : List JVal} {v : JVal}
    (h : lookupField "category" fs = some v) (hs : ∀ s, v ≠ .str s) :
    refCats (JVal.obj fs :: ts) = refCats ts := by
  cases v with
  | str s => exact absurd rfl (hs s)
  | num n => simp [refCats, List.filterMap_cons, h]
  | bool b => simp [refCats, List.filterMap_cons, h]
  | null => simp [refCats, List.filterMap_cons, h]
  | list xs => simp [refCats, List.filterMap_cons, h]
  | obj gs => simp [refCats, List.filterMap_cons, h]

theorem refCats_cons_str {fs : List (String × JVal)} {ts : List JVal} {s : String}
    (h : lookupField "category" fs = some (.str s)) (hie : s.isEmpty = false) :
    refCats (JVal.obj fs :: ts) = s :: refCats ts := by
  simp [refCats, List.filterMap_cons, h, hie]

theorem c6_refs_aux : ∀ (tools : List JVal) (i : Nat) (refs0 : List String),
    (∀ t ∈ tools, ∃ fs, t = JVal.obj fs) → refs0.Nodup →
    ∃ te refs, categoriesTypeAndRefsAux tools i refs0 = .ok (te, refs)
      ∧ refs.Nodup
      ∧ (∀ c, c ∈ refs ↔ c ∈ refs0 ∨ c ∈ refCats tools)
      ∧ (∀ e ∈ te, e.data.getLast? = some 't' ∨ e.data.getLast? = some 'l')
  | [], _, refs0, _, hnd =>
    ⟨[], refs0, rfl, hnd, by simp [refCats], by simp⟩
  | t :: ts, i, refs0, hobj, hnd => by
    obtain ⟨fs, rfl⟩ := hobj t (List.mem_cons_self _ _)
    have hobj' : ∀ t ∈ ts, ∃ fs, t = JVal.obj fs :=
      fun t ht => hobj t (List.mem_cons_of_mem _ ht)
    rcases hcat : lookupField "category" fs with _ | v
    · obtain ⟨te, refs, heq, h1, h2, h3⟩ := c6_refs_aux ts (i + 1) refs0 hobj' hnd
      refine ⟨te, refs, ?_, h1, ?_, h3⟩
      · simp [categoriesTypeAndRefsAux, pyGetD, hcat, pyTruthy, heq]
      · intro c
        rw [h2, refCats_cons_none hcat]
    · rcases htr : pyTruthy v with _ | _
      · obtain ⟨te, refs, heq, h1, h2, h3⟩ := c6_refs_aux ts (i + 1) refs0 hobj' hnd
        refine ⟨te, refs, ?_, h1, ?_, h3⟩
        · simp [categoriesTypeAndRefsAux, pyGetD, hcat, htr, heq]
        · intro c
          rw [h2, refCats_cons_falsy hcat htr]
      · cases v with
        | str s =>
          have hie : s.isEmpty = false := by simpa [pyTruthy] using htr
          obtain ⟨te, refs, heq, h1, h2, h3⟩ :=
            c6_refs_aux ts (i + 1) (setAddStr refs0 s) hobj' (nodup_setAddStr _ _ hnd)
          refine ⟨te, refs, ?_, h1, ?_, h3⟩
          · simp [categoriesTypeAndRefsAux, pyGetD, hcat, htr, heq]
          · intro c
            rw [h2, refCats_cons_str hcat hie, mem_setAddStr, List.mem_cons]
            tauto
        | null => simp [pyTruthy] at htr
        | num n =>
          obtain ⟨te, refs, heq, h1, h2, h3⟩ := c6_refs_aux ts (i + 1) refs0 hobj' hnd
          refine ⟨fieldNotStringMsg
              (pyStr ((lookupField "name" fs).getD
                (.str ("tool[" ++ toString i ++ "]")))) "category" (typeName (.num n))
              :: te, refs, ?_, h1, ?_, ?_⟩
          · simp [categoriesTypeAndRefsAux, pyGetD, hcat, htr, heq]
          · intro c
            rw [h2, refCats_cons_nonstr hcat (fun s h => JVal.noConfusion h)]
          · intro e he
            rcases List.mem_cons.1 he with rfl | he2
            · exact fieldNotStringMsg_last _ _ _ (fun h => JVal.noConfusion h)
                (fun s h => JVal.noConfusion h)
            · exact h3 e he2
        | bool b =>
          obtain ⟨te, refs, heq, h1, h2, h3⟩ := c6_refs_aux ts (i + 1) refs0 hobj' hnd
          refine ⟨fieldNotStringMsg
              (pyStr ((lookupField "name" fs).getD
                (.str ("tool[" ++ toString i ++ "]")))) "category" (typeName (.bool b))
              :: te, refs, ?_, h1, ?_, ?_⟩
          · simp [categoriesTypeAndRefsAux, pyGetD, hcat, htr, heq]
          · intro c
            rw [h2, refCats_cons_nonstr hcat (fun s h => JVal.noConfusion h)]
          · intro e he
            rcases List.mem_cons.1 he with rfl | he2
            · exact fieldNotStringMsg_last _ _ _ (fun h => JVal.noConfusion h)
                (fun s h => JVal.noConfusion h)
            · exact h3 e he2
        | list xs =>
          obtain ⟨te, refs, heq, h1, h2, h3⟩ := c6_refs_aux ts (i + 1) refs0 hobj' hnd
          refine ⟨fieldNotStringMsg
              (pyStr ((lookupField "name" fs).getD
                (.str ("tool[" ++ toString i ++ "]")))) "category" (typeName (.list xs))
              :: te, refs, ?_, h1, ?_, ?_⟩
          · simp [categoriesTypeAndRefsAux, pyGetD, hcat, htr, heq]
          · intro c
            rw [h2, refCats_cons_nonstr hcat (fun s h => JVal.noConfusion h)]
          · intro e he
            rcases List.mem_cons.1 he with rfl | he2
            · exact fieldNotStringMsg_last _ _ _ (fun h => JVal.noConfusion h)
                (fun s h => JVal.noConfusion h)
            · exact h3 e he2
        | obj gs =>
          obtain ⟨te, refs, heq, h1, h2, h3⟩ := c6_refs_aux ts (i + 1) refs0 hobj' hnd
          refine ⟨fieldNotStringMsg
              (pyStr ((lookupField "name" fs).getD
                (.str ("tool[" ++ toString i ++ "]")))) "category" (typeName (.obj gs))
              :: te, refs, ?_, h1, ?_, ?_⟩
          · simp [categoriesTypeAndRefsAux, pyGetD, hcat, htr, heq]
          · intro c
            rw [h2, refCats_cons_nonstr hcat (fun s h => JVal.noConfusion h)]
          · intro e he
            rcases List.mem_cons.1 he with rfl | he2
            · exact fieldNotStringMsg_last _ _ _ (fun h => JVal.noConfusion h)
                (fun s h => JVal.noConfusion h)
            · exact h3 e he2

theorem count_zero_of_last_ne {msg : String} {te : List String}
    (hte : ∀ e ∈ te, e.data.getLast? = some 't' ∨ e.data.getLast? = some 'l')
    (hm : msg.data.getLast? ≠ some 't' ∧ msg.data.getLast? ≠ some 'l') :
    te.count msg = 0 := by
  refine List.count_eq_zero_of_not_mem (fun hmem => ?_)
  rcases hte msg hmem with h | h
  · exact hm.1 h
  · exact hm.2 h

/-- C6: for every catalog whose tools are tool records (dicts), each category
key referenced by some tool as a non-empty string category value but not
defined yields exactly one missing-category error, and each defined category
key referenced by no tool yields exactly one unused-category error, the two
directions independent; in particular the one-tool/"bar"/empty-categories
scenario yields exactly the single missing-"bar" error. -/
theorem c6_category_closure (tools : List JVal) (cats : List (String × JVal))
    (hobj : ∀ t ∈ tools, ∃ fs, t = JVal.obj fs) :
    ∃ l, validate_categories tools cats = .ok l
      ∧ (∀ c, l.count (missingCatMsg c)
          = if c ∈ refCats tools ∧ c ∉ cats.map Prod.fst then 1 else 0)
      ∧ (∀ c, l.count (unusedCatMsg c)
          = if c ∈ cats.map Prod.fst ∧ c ∉ refCats tools then 1 else 0)
      ∧ validate_tools_json
          [("tools", .list [.obj [("name", .str "foo"), ("type", .str "skill"),
            ("description", .str "x"), ("category", .str "bar")]]),
           ("categories", .obj [])] none
        = .ok [missingCatMsg "bar"] := by
  obtain ⟨te, refs, heq, hnd, hmem, hte⟩ := c6_refs_aux tools 0 [] hobj List.nodup_nil
  have hmem' : ∀ c, c ∈ refs ↔ c ∈ refCats tools := by
    intro c
    rw [hmem]
    simp
  refine ⟨te ++ (missingCategories refs cats).map missingCatMsg
      ++ (unusedCategories refs cats).map unusedCatMsg, ?_, ?_, ?_, rfl⟩
  · simp [validate_categories, heq]
  · intro c
    rw [List.count_append, List.count_append]
    have hz1 : te.count (missingCatMsg c) = 0 :=
      count_zero_of_last_ne hte (by rw [missingCatMsg_last]; exact ⟨by decide, by decide⟩)
    have hz2 : ((unusedCategories refs cats).map unusedCatMsg).count (missingCatMsg c)
        = 0 := by
      refine List.count_eq_zero_of_not_mem (fun hm => ?_)
      rcases List.mem_map.1 hm with ⟨b, _, hb⟩
      have h1 := unusedCatMsg_last b
      rw [hb, missingCatMsg_last] at h1
      exact absurd (Option.some_inj.1 h1) (by decide)
    rw [hz1, hz2, List.count_map_of_injective _ _ (fun a b h => missingCatMsg_inj h)]
    have hperm := List.perm_insertionSort (α := String) (· ≤ ·)
      (refs.filter (fun c => !(dedupStrs (cats.map Prod.fst)).contains c))
    rw [missingCategories, pySortedStrs, hperm.count_eq, nodupCount (hnd.filter _)]
    have hmf : c ∈ refs.filter (fun c => !(dedupStrs (cats.map Prod.fst)).contains c)
        ↔ c ∈ refCats tools ∧ c ∉ cats.map Prod.fst := by
      rw [List.mem_filter, hmem']
      constructor
      · rintro ⟨h1, h2⟩
        refine ⟨h1, fun hk => ?_⟩
        have hc2 : (dedupStrs (cats.map Prod.fst)).contains c = true :=
          List.elem_iff.2 ((mem_dedupStrs _ _).2 hk)
        rw [hc2] at h2
        exact absurd h2 (by decide)
      · rintro ⟨h1, h2⟩
        refine ⟨h1, ?_⟩
        have hc2 : (dedupStrs (cats.map Prod.fst)).contains c = false := by
          rcases hcc : (dedupStrs (cats.map Prod.fst)).contains c with _ | _
          · rfl
          · exact absurd ((mem_dedupStrs _ _).1 (List.elem_iff.1 hcc)) h2
        rw [hc2]
        rfl
    simp only [Nat.zero_add, Nat.add_zero]
    exact if_congr hmf rfl rfl
  · intro c
    rw [List.count_append, List.count_append]
    have hz1 : te.count (unusedCatMsg c) = 0 :=
      count_zero_of_last_ne hte (by rw [unusedCatMsg_last]; exact ⟨by decide, by decide⟩)
    have hz2 : ((missingCategories refs cats).map missingCatMsg).count (unusedCatMsg c)
        = 0 := by
      refine List.count_eq_zero_of_not_mem (fun hm => ?_)
      rcases List.mem_map.1 hm with ⟨b, _, hb⟩
      have h1 := missingCatMsg_last b
      rw [hb, unusedCatMsg_last] at h1
      exact absurd (Option.some_inj.1 h1) (by decide)
    rw [hz1, hz2, List.count_map_of_injective _ _ (fun a b h => unusedCatMsg_inj h)]
    have hperm := List.perm_insertionSort (α := String) (· ≤ ·)
      ((dedupStrs (cats.map Prod.fst)).filter (fun c => !refs.contains c))
    rw [unusedCategories, pySortedStrs, hperm.count_eq,
      nodupCount ((nodup_dedupStrs _).filter _)]
    have hmf : c ∈ (dedupStrs (cats.map Prod.fst)).filter (fun c => !refs.contains c)
        ↔ c ∈ cats.map Prod.fst ∧ c ∉ refCats tools := by
      rw [List.mem_filter, mem_dedupStrs]
      constructor
      · rintro ⟨h1, h2⟩
        refine ⟨h1, fun hk => ?_⟩
        have hc2 : refs.contains c = true := List.elem_iff.2 ((hmem' c).2 hk)
        rw [hc2] at h2
        exact absurd h2 (by decide)
      · rintro ⟨h1, h2⟩
        refine ⟨h1, ?_⟩
        have hc2 : refs.contains c = false := by
          rcases hcc : refs.contains c with _ | _
          · rfl
          · exact absurd ((hmem' c).1 (List.elem_iff.1 hcc)) h2
        rw [hc2]
        rfl
    simp only [Nat.zero_add, Nat.add_zero]
    exact if_congr hmf rfl rfl

/-- C6 witness: one tool referencing "bar" with no defined categories. -/
theorem c6_witness :
    ∃ l, validate_categories
        [.obj [("name", .str "foo"), ("type", .str "skill"),
          ("description", .str "x"), ("category", .str "bar")]] [] = .ok l
      ∧ (∀ c, l.count (missingCatMsg c)
          = if c ∈ refCats [.obj [("name", .str "foo"), ("type", .str "skill"),
              ("description", .str "x"), ("category", .str "bar")]]
              ∧ c ∉ ([] : List (String × JVal)).map Prod.fst then 1 else 0)
      ∧ (∀ c, l.count (unusedCatMsg c)
          = if c ∈ ([] : List (String × JVal)).map Prod.fst
              ∧ c ∉ refCats [.obj [("name", .str "foo"), ("type", .str "skill"),
                ("description", .str "x"), ("category", .str "bar")]] then 1 else 0)
      ∧ validate_tools_json
          [("tools", .list [.obj [("name", .str "foo"), ("type", .str "skill"),
            ("description", .str "x"), ("category", .str "bar")]]),
           ("categories", .obj [])] none
        = .ok [missingCatMsg "bar"] :=
  c6_category_closure _ _ (by
    intro t ht
    fin_cases ht
    exact ⟨_, rfl⟩)

theorem jsonToolsDictAux_ok : ∀ (tl : List JVal) (acc : List (JVal × JVal)),
    (∀ t ∈ tl, ∃ fs, t = JVal.obj fs) →
    (∀ fs, JVal.obj fs ∈ tl → pyHashable ((lookupField "name" fs).getD .null) = true) →
    ∃ jd, jsonToolsDictAux tl acc = .ok jd
  | [], acc, _, _ => ⟨acc, rfl⟩
  | t :: ts, acc, hobj, hhash => by
    obtain ⟨fs, rfl⟩ := hobj t (List.mem_cons_self _ _)
    have hh := hhash fs (List.mem_cons_self _ _)
    obtain ⟨jd, hjd⟩ := jsonToolsDictAux_ok ts
      (pyDictSet acc ((lookupField "name" fs).getD .null)
        ((lookupField "type" fs).getD .null))
      (fun t ht => hobj t (List.mem_cons_of_mem _ ht))
      (fun fs2 hf => hhash fs2 (List.mem_cons_of_mem _ hf))
    refine ⟨jd, ?_⟩
    simp [jsonToolsDictAux, pyGetD, hh, hjd]

/-- C4: for every FilesystemToolView entry, the filesystem-agreement check
emits exactly the claimed errors — one missing-from-tools.json error when no
catalog tool has the name, one type-mismatch error when the catalog type
differs, and none when name and type agree — and every emitted error belongs
to some FilesystemToolView entry, so no error is ever emitted for a catalog
tool absent from the view.  Quantified over catalogs whose tools are records
with hashable name values (the dict comprehension of lines 255-257 hashes
them). -/
theorem c4_filesystem_agreement (td : List (String × JVal)) (tl : List JVal)
    (fsv : List (String × String))
    (htools : lookupField "tools" td = some (.list tl))
    (hobj : ∀ t ∈ tl, ∃ fs, t = JVal.obj fs)
    (hhash : ∀ fs, JVal.obj fs ∈ tl →
      pyHashable ((lookupField "name" fs).getD .null) = true) :
    ∃ jd l, jsonToolsDictAux tl [] = .ok jd
      ∧ validate_filesystem_tools_in_json td fsv = .ok l
      ∧ l = (fsv.map (fsEntryErrors jd)).flatten
      ∧ (∀ p ∈ fsv,
          (pyDictGet jd (.str p.1) = none →
            fsEntryErrors jd p = [fsMissingMsg p.1 p.2])
          ∧ (∀ ty, pyDictGet jd (.str p.1) = some ty → pyEq ty (.str p.2) = false →
              fsEntryErrors jd p = [fsMismatchMsg p.1 p.2 (pyStr ty)])
          ∧ (∀ ty, pyDictGet jd (.str p.1) = some ty → pyEq ty (.str p.2) = true →
              fsEntryErrors jd p = []))
      ∧ (∀ e ∈ l, ∃ p, p ∈ fsv
          ∧ (e = fsMissingMsg p.1 p.2 ∨ ∃ jt, e = fsMismatchMsg p.1 p.2 jt)) := by
  obtain ⟨jd, hjd⟩ := jsonToolsDictAux_ok tl [] hobj hhash
  refine ⟨jd, (fsv.map (fsEntryErrors jd)).flatten, hjd, ?_, rfl, ?_, ?_⟩
  · simp [validate_filesystem_tools_in_json, htools, pyIter, hjd]
  · intro p _
    refine ⟨?_, ?_, ?_⟩
    · intro h
      simp [fsEntryErrors, h]
    · intro ty h hne
      simp [fsEntryErrors, h, hne]
    · intro ty h he
      simp [fsEntryErrors, h, he]
  · intro e he
    rcases List.mem_flatten.1 he with ⟨l2, hl2, hel⟩
    rcases List.mem_map.1 hl2 with ⟨p, hp, rfl⟩
    refine ⟨p, hp, ?_⟩
    rcases hg : pyDictGet jd (.str p.1) with _ | ty
    · simp only [fsEntryErrors, hg, List.mem_singleton] at hel
      exact Or.inl hel
    · rcases hq : pyEq ty (.str p.2) with _ | _
      · simp only [fsEntryErrors, hg, hq, Bool.false_eq_true, if_false,
          List.mem_singleton] at hel
        exact Or.inr ⟨pyStr ty, hel⟩
      · simp only [fsEntryErrors, hg, hq, if_true, List.not_mem_nil] at hel

/-- C4 witness: a two-entry FilesystemToolView against a one-tool catalog. -/
theorem c4_witness :
    ∃ jd l, jsonToolsDictAux [.obj [("name", .str "a"), ("type", .str "skill"),
        ("description", .str "d"), ("category", .str "c")]] [] = .ok jd
      ∧ validate_filesystem_tools_in_json
          [("tools", .list [.obj [("name", .str "a"), ("type", .str "skill"),
            ("description", .str "d"), ("category", .str "c")]]),
           ("categories", .obj [])] [("a", "skill"), ("b", "agent")] = .ok l
      ∧ l = ([("a", "skill"), ("b", "agent")].map (fsEntryErrors jd)).flatten
      ∧ (∀ p ∈ [("a", "skill"), ("b", "agent")],
          (pyDictGet jd (.str p.1) = none →
            fsEntryErrors jd p = [fsMissingMsg p.1 p.2])
          ∧ (∀ ty, pyDictGet jd (.str p.1) = some ty → pyEq ty (.str p.2) = false →
              fsEntryErrors jd p = [fsMismatchMsg p.1 p.2 (pyStr ty)])
          ∧ (∀ ty, pyDictGet jd (.str p.1) = some ty → pyEq ty (.str p.2) = true →
              fsEntryErrors jd p = []))
      ∧ (∀ e ∈ l, ∃ p, p ∈ [("a", "skill"), ("b", "agent")]
          ∧ (e = fsMissingMsg p.1 p.2 ∨ ∃ jt, e = fsMismatchMsg p.1 p.2 jt)) :=
  c4_filesystem_agreement _ _ _ rfl
    (by
      intro t ht
      fin_cases ht
      exact ⟨_, rfl⟩)
    (by
      intro fs hf
      fin_cases hf
      rfl)

theorem loadExternalPluginsAux_ok : ∀ (entries : List JVal),
    (∀ e ∈ entries, ∃ efs, e = JVal.obj efs) →
    loadExternalPluginsAux entries = .ok (entries.filterMap pluginNorm)
  | [], _ => rfl
  | e :: es, hobj => by
    obtain ⟨efs, rfl⟩ := hobj e (List.mem_cons_self _ _)
    have ih := loadExternalPluginsAux_ok es
      (fun e he => hobj e (List.mem_cons_of_mem _ he))
    rcases hn : lookupField "name" efs with _ | n
    · simp [loadExternalPluginsAux, pyContainsStr, hn, ih, List.filterMap_cons,
        pluginNorm]
    · rcases hs : lookupField "source" efs with _ | src
      · simp [loadExternalPluginsAux, pyContainsStr, hn, hs, pyGetD, ih,
          List.filterMap_cons, pluginNorm]
      · simp [loadExternalPluginsAux, pyContainsStr, hn, hs, pyGetItem, pyGetD, ih,
          List.filterMap_cons, pluginNorm]

/-- C9 counterexample: an external-plugin document whose plugins list holds
the integer 5; `"name" in plugin` raises TypeError, so no marketplace
document is generated at all, while the claim requires the entry to be
skipped individually. -/
theorem c9_counterexample :
    marketplaceFromConfig (JVal.obj []) (some (.obj [("plugins", .list [.num 5])]))
      = .error (.typeError ("argument of type " ++ pyQuote ++ "int" ++ pyQuote
          ++ " is not iterable")) := rfl

/-- C9 (amended): for every external-plugin document whose entries are all
objects, the generated marketplace plugins list is exactly the normalized
well-formed entries (those having both name and source; entries missing
either are skipped individually) in input order, followed by exactly one
synthetic bundled local plugin; an absent document behaves as zero externals
and yields the one-element list. -/
theorem c9_marketplace_plugins (cfs : List (String × JVal)) (entries : List JVal)
    (tc : JVal)
    (hp : (lookupField "plugins" cfs).getD (.list []) = .list entries)
    (hobj : ∀ e ∈ entries, ∃ efs, e = JVal.obj efs) :
    (∃ m, marketplaceFromConfig tc (some (.obj cfs)) = .ok m
      ∧ m.plugins = entries.filterMap pluginNorm ++ [bundledPlugin]
      ∧ m.plugins.length = (entries.filterMap pluginNorm).length + 1)
    ∧ (∃ m0, marketplaceFromConfig tc none = .ok m0
      ∧ m0.plugins = [bundledPlugin]) := by
  constructor
  · refine ⟨generate_marketplace_json tc (entries.filterMap pluginNorm), ?_, rfl, ?_⟩
    · simp [marketplaceFromConfig, load_external_plugins, pyGetD, hp, pyIter,
        loadExternalPluginsAux_ok entries hobj]
    · simp [generate_marketplace_json]
  · exact ⟨generate_marketplace_json tc [], rfl, rfl⟩

/-- C9 witness: two well-formed external entries and one missing its source
give a three-element plugins list (the two externals, then the bundled
plugin). -/
theorem c9_witness :
    (∃ m, marketplaceFromConfig (JVal.obj [])
        (some (.obj [("plugins", .list
          [.obj [("name", .str "p1"), ("source", .str "gh/p1")],
           .obj [("name", .str "p2")],
           .obj [("name", .str "p3"), ("source", .str "s3"),
             ("description", .str "dd")]])])) = .ok m
      ∧ m.plugins = [.obj [("name", .str "p1"), ("source", .str "gh/p1")],
           .obj [("name", .str "p2")],
           .obj [("name", .str "p3"), ("source", .str "s3"),
             ("description", .str "dd")]].filterMap pluginNorm ++ [bundledPlugin]
      ∧ m.plugins.length = ([.obj [("name", .str "p1"), ("source", .str "gh/p1")],
           .obj [("name", .str "p2")],
           .obj [("name", .str "p3"), ("source", .str "s3"),
             ("description", .str "dd")]].filterMap pluginNorm).length + 1)
    ∧ (∃ m0, marketplaceFromConfig (JVal.obj []) none = .ok m0
      ∧ m0.plugins = [bundledPlugin]) :=
  c9_marketplace_plugins _ _ _ rfl
    (by
      intro e he
      fin_cases he <;> exact ⟨_, rfl⟩)

/-- C7 counterexample: for the manifest with one skill tool lacking only its
description, the website-data builder emits no entry at all — every tool
array of its output is empty, because build_website_data (lines 233-237)
skips any tool missing a required key with a warning — contradicting the
claim that an entry is still emitted with default enrichment values. -/
theorem c7_counterexample :
    build_website_data emptyEnv
      [("tools", .list [.obj [("name", .str "foo"), ("type", .str "skill"),
        ("category", .str "bar")]]),
       ("categories", .obj [])]
      = .ok ⟨"odh-ai-helpers", "ODH", .obj [("categories", .obj [])], [], [], [], []⟩ := rfl

/-- C7 (amended): a tool object with non-empty string name, valid type and
non-empty string category but no description field produces exactly one
per-tool schema error, naming the missing description field; the website-data
builder, however, skips such a tool and emits no entry for it, whatever the
asset tree contains. -/
theorem c7_missing_description (n ty c : String) (cv : JVal) (env : Env) (i : Nat)
    (hty : ty ∈ validToolTypes) (hn : (pyStripWs n).isEmpty = false)
    (hc : (pyStripWs c).isEmpty = false) :
    validate_tool_structure
        [("name", .str n), ("type", .str ty), ("category", .str c)] i
      = .ok [missingFieldMsg n "description"]
    ∧ build_website_data env
        [("tools", .list [.obj [("name", .str n), ("type", .str ty),
          ("category", .str c)]]),
         ("categories", cv)]
      = .ok ⟨"odh-ai-helpers", "ODH", .obj [("categories", cv)], [], [], [], []⟩ := by
  constructor
  · fin_cases hty <;>
      simp [validate_tool_structure, toolTypeErrors, toolFieldErrors, lookupField,
        requiredToolFields, pySortedStrs, dedupStrs, dedupStrsAux, pyTruthy,
        pyHashable, pyEq, validToolTypes, pyStr, hn, hc] <;> decide
  · simp [build_website_data, pyGetItem, lookupField, pyIter, processTools,
      websiteRequiredKeys]

/-- C7 witness: the scenario tool with name "foo", type "skill" and category
"bar", against the empty asset tree. -/
theorem c7_witness :
    validate_tool_structure
        [("name", .str "foo"), ("type", .str "skill"), ("category", .str "bar")] 0
      = .ok [missingFieldMsg "foo" "description"]
    ∧ build_website_data emptyEnv
        [("tools", .list [.obj [("name", .str "foo"), ("type", .str "skill"),
          ("category", .str "bar")]]),
         ("categories", .obj [])]
      = .ok ⟨"odh-ai-helpers", "ODH", .obj [("categories", .obj [])], [], [], [], []⟩ :=
  c7_missing_description "foo" "skill" "bar" (.obj []) emptyEnv 0
    (by decide) (by decide) (by decide)

/-- C3 counterexample: on a catalog whose single tool has the number 5 as its
category, the validator's output is not the claimed section concatenation:
validate_categories re-emits the non-string-category type error between the
category-structure section and the missing-category section (and so the same
string appears twice), which the claimed ordering does not allow. -/
theorem c3_counterexample :
    validate_tools_json
      [("tools", .list [.obj [("name", .str "t1"), ("type", .str "skill"),
        ("description", .str "d"), ("category", .num 5)]]),
       ("categories", .obj [])] none
      ≠ .ok (specClaimedErrorList
        [("tools", .list [.obj [("name", .str "t1"), ("type", .str "skill"),
          ("description", .str "d"), ("category", .num 5)]]),
         ("categories", .obj [])] none) := by
  intro h
  rw [show validate_tools_json
      [("tools", .list [.obj [("name", .str "t1"), ("type", .str "skill"),
        ("description", .str "d"), ("category", .num 5)]]),
       ("categories", .obj [])] none
      = .ok [fieldNotStringMsg "t1" "category" "int",
             fieldNotStringMsg "t1" "category" "int"] from rfl,
    show specClaimedErrorList
      [("tools", .list [.obj [("name", .str "t1"), ("type", .str "skill"),
        ("description", .str "d"), ("category", .num 5)]]),
       ("categories", .obj [])] none
      = [fieldNotStringMsg "t1" "category" "int"] from rfl] at h
  simp at h

/-- C3 (amended): every successful validator run returns exactly the
concatenation: per-tool schema errors (in tool order), then name-uniqueness
errors, then category-structure errors (in category-key order), then the
per-tool non-string-category type errors (in tool order), then the
missing-category errors sorted by category, then the unused-category errors
sorted by category, then the filesystem-agreement errors (in enumeration
order); and the validator is a pure function, so equal inputs give equal
output. -/
theorem c3_error_ordering (td : List (String × JVal)) (tl : List JVal)
    (cats : List (String × JVal)) (fsv : Option (List (String × String)))
    (l : List String)
    (htools : lookupField "tools" td = some (.list tl))
    (hcats : lookupField "categories" td = some (.obj cats))
    (h : validate_tools_json td fsv = .ok l) :
    ∃ pt uq te refs fe,
      perToolErrors tl 0 = .ok pt
      ∧ validate_tool_names_unique tl = .ok uq
      ∧ categoriesTypeAndRefsAux tl 0 [] = .ok (te, refs)
      ∧ (match fsv with
          | none => Except.ok []
          | some fs => validate_filesystem_tools_in_json td fs) = .ok fe
      ∧ l = pt ++ uq ++ validate_category_structure cats ++ te
          ++ (missingCategories refs cats).map missingCatMsg
          ++ (unusedCategories refs cats).map unusedCatMsg ++ fe
      ∧ (missingCategories refs cats).Sorted (· ≤ ·)
      ∧ (unusedCategories refs cats).Sorted (· ≤ ·) := by
  simp only [validate_tools_json, htools, hcats, Option.isNone_some, Bool.false_eq_true,
    if_false, Option.getD_some] at h
  rcases hpt : perToolErrors tl 0 with e | pt
  · rw [hpt] at h
    simp at h
  rw [hpt] at h
  rcases huq : validate_tool_names_unique tl with e | uq
  · rw [huq] at h
    simp at h
  rw [huq] at h
  rcases hak : categoriesTypeAndRefsAux tl 0 [] with e | pair
  · rw [validate_categories, hak] at h
    simp at h
  obtain ⟨te, refs⟩ := pair
  rw [validate_categories, hak] at h
  rcases fsv with _ | fs2
  · simp only [pyBind_ok, pyPure_eq, Except.ok.injEq] at h
    refine ⟨pt, uq, te, refs, [], rfl, rfl, rfl, rfl, ?_, ?_, ?_⟩
    · rw [← h]
      simp [List.append_assoc]
    · exact List.sorted_insertionSort _ _
    · exact List.sorted_insertionSort _ _
  · simp only [pyBind_ok, pyPure_eq] at h
    rcases hfe : validate_filesystem_tools_in_json td fs2 with e | fe
    · rw [hfe] at h
      simp at h
    rw [hfe] at h
    simp only [pyBind_ok, pyPure_eq, Except.ok.injEq] at h
    refine ⟨pt, uq, te, refs, fe, rfl, rfl, rfl, hfe, ?_, ?_, ?_⟩
    · rw [← h]
      simp [List.append_assoc]
    · exact List.sorted_insertionSort _ _
    · exact List.sorted_insertionSort _ _

/-- C3 witness: the section decomposition at a concrete catalog. -/
theorem c3_witness :
    ∃ pt uq te refs fe,
      perToolErrors [.obj [("name", .str "t1"), ("type", .str "skill"),
        ("description", .str "d"), ("category", .num 5)]] 0 = .ok pt
      ∧ validate_tool_names_unique [.obj [("name", .str "t1"), ("type", .str "skill"),
          ("description", .str "d"), ("category", .num 5)]] = .ok uq
      ∧ categoriesTypeAndRefsAux [.obj [("name", .str "t1"), ("type", .str "skill"),
          ("description", .str "d"), ("category", .num 5)]] 0 [] = .ok (te, refs)
      ∧ (match (none : Option (List (String × String))) with
          | none => Except.ok []
          | some fs => validate_filesystem_tools_in_json
              [("tools", .list [.obj [("name", .str "t1"), ("type", .str "skill"),
                ("description", .str "d"), ("category", .num 5)]]),
               ("categories", .obj [])] fs) = .ok fe
      ∧ [fieldNotStringMsg "t1" "category" "int",
         fieldNotStringMsg "t1" "category" "int"]
          = pt ++ uq ++ validate_category_structure [] ++ te
            ++ (missingCategories refs []).map missingCatMsg
            ++ (unusedCategories refs []).map unusedCatMsg ++ fe
      ∧ (missingCategories refs []).Sorted (· ≤ ·)
      ∧ (unusedCategories refs []).Sorted (· ≤ ·) :=
  c3_error_ordering
    [("tools", .list [.obj [("name", .str "t1"), ("type", .str "skill"),
      ("description", .str "d"), ("category", .num 5)]]),
     ("categories", .obj [])]
    _ _ none
    [fieldNotStringMsg "t1" "category" "int",
     fieldNotStringMsg "t1" "category" "int"]
    rfl rfl rfl

theorem isEmpty_false_of_strip (s : String) (h : (pyStripWs s).isEmpty = false) :
    s.isEmpty = false := by
  rcases he : s.isEmpty with _ | _
  · rfl
  · rw [(String.isEmpty_iff _).1 he] at h
    exact absurd h (by decide)

theorem validate_tool_structure_ok (fs : List (String × JVal)) (i : Nat)
    (h : ToolRecordOk fs) : validate_tool_structure fs i = .ok [] := by
  obtain ⟨hkeys, _, hfields, ty, hty, htyv⟩ := h
  have hm : requiredToolFields.filter (fun f => (lookupField f fs).isNone) = [] := by
    rw [List.filter_eq_nil_iff]
    intro f hf
    obtain ⟨s, hs, _⟩ := hfields f hf
    simp [hs]
  have hd : (fs.map Prod.fst).filter (fun k => !requiredToolFields.contains k) = [] := by
    rw [List.filter_eq_nil_iff]
    intro k hk
    have h2 := hkeys k hk
    simp
    exact h2
  have htr : pyTruthy (.str ty) = true := by
    obtain ⟨s, hs, hsne⟩ := hfields "type" (by decide)
    rw [hty] at hs
    have : ty = s := by injection hs with h2; injection h2
    subst this
    simp [pyTruthy, isEmpty_false_of_strip _ hsne]
  have hany : validToolTypes.any (fun s => pyEq (.str ty) (.str s)) = true := by
    fin_cases htyv <;> decide
  have hte : toolTypeErrors (pyStr ((lookupField "name" fs).getD
      (.str ("tool[" ++ toString i ++ "]")))) fs = .ok [] := by
    rw [toolTypeErrors, hty]
    simp [htr, pyHashable, hany]
  have hfe : ∀ f ∈ requiredToolFields,
      toolFieldErrors (pyStr ((lookupField "name" fs).getD
        (.str ("tool[" ++ toString i ++ "]")))) fs f = [] := by
    intro f hf
    obtain ⟨s, hs, hsne⟩ := hfields f hf
    rw [toolFieldErrors, hs]
    simp [hsne]
  rw [validate_tool_structure, hm, hd, hte]
  have : (requiredToolFields.map (toolFieldErrors (pyStr ((lookupField "name" fs).getD
      (.str ("tool[" ++ toString i ++ "]")))) fs)).flatten = [] := by
    rw [List.flatten_eq_nil_iff]
    intro l hl
    rcases List.mem_map.1 hl with ⟨f, hf, rfl⟩
    exact hfe f hf
  simp [this, dedupStrs, dedupStrsAux, pySortedStrs]

theorem perToolErrors_ok : ∀ (tl : List JVal) (i : Nat),
    (∀ t ∈ tl, ∃ fs, t = JVal.obj fs ∧ ToolRecordOk fs) →
    perToolErrors tl i = .ok []
  | [], _, _ => rfl
  | t :: ts, i, h => by
    obtain ⟨fs, rfl, hok⟩ := h t (List.mem_cons_self _ _)
    have ih := perToolErrors_ok ts (i + 1) (fun t ht => h t (List.mem_cons_of_mem _ ht))
    simp [perToolErrors, validate_tool_structure_ok fs i hok, ih]

theorem toolNameOf_obj_str {fs : List (String × JVal)} {s : String}
    (h : lookupField "name" fs = some (.str s)) : toolNameOf (JVal.obj fs) = some s := by
  simp [toolNameOf, h]

theorem uniq_ok : ∀ (tl : List JVal) (seen : List JVal),
    (∀ t ∈ tl, ∃ fs, t = JVal.obj fs
      ∧ ∃ s, lookupField "name" fs = some (.str s) ∧ s.isEmpty = false) →
    (tl.filterMap toolNameOf).Nodup →
    (∀ n ∈ tl.filterMap toolNameOf, pyInSet (.str n) seen = false) →
    validateToolNamesUniqueAux tl seen = .ok []
  | [], _, _, _, _ => rfl
  | t :: ts, seen, hobj, hnd, hseen => by
    obtain ⟨fs, rfl, s, hs, hse⟩ := hobj t (List.mem_cons_self _ _)
    have hmap : (JVal.obj fs :: ts).filterMap toolNameOf
        = s :: ts.filterMap toolNameOf := by
      rw [List.filterMap_cons, toolNameOf_obj_str hs]
    rw [hmap] at hnd hseen
    have hsin : pyInSet (.str s) seen = false := hseen s (List.mem_cons_self _ _)
    have ih := uniq_ok ts ((JVal.str s) :: seen)
      (fun t ht => hobj t (List.mem_cons_of_mem _ ht))
      hnd.of_cons
      (fun n hn => by
        have h1 : pyInSet (.str n) seen = false := hseen n (List.mem_cons_of_mem _ hn)
        have h2 : s ≠ n := fun he => (List.nodup_cons.1 hnd).1 (he ▸ hn)
        simp [pyInSet, List.any_cons, pyEq] at h1 ⊢
        exact ⟨h2, h1⟩)
    simp [validateToolNamesUniqueAux, pyGetD, hs, pyTruthy, hse, pyHashable, hsin, ih]

theorem catEntryErrors_ok (k : String) (v : JVal) (h : CatRecordOk v) :
    catEntryErrors k v = [] := by
  obtain ⟨gs, rfl, ⟨sn, hsn, hsne⟩, ⟨sd, hsd, hsde⟩⟩ := h
  rw [catEntryErrors]
  simp [hsn, hsd, catStrFieldErrors, hsne, hsde]

theorem assoc_unique : ∀ (l : List (String × JVal)),
    (l.map Prod.fst).Nodup → ∀ {k : String} {a b : JVal},
    (k, a) ∈ l → (k, b) ∈ l → a = b
  | [], _, _, _, _, ha, _ => by simp at ha
  | (k2, v2) :: rest, hnd, k, a, b, ha, hb => by
    rcases List.mem_cons.1 ha with h1 | h1 <;> rcases List.mem_cons.1 hb with h2 | h2
    · injection h1 with e1 e2
      injection h2 with f1 f2
      rw [e2, f2]
    · injection h1 with e1 e2
      subst e1
      exfalso
      exact (List.nodup_cons.1 hnd).1 (List.mem_map.2 ⟨(k, b), h2, rfl⟩)
    · injection h2 with f1 f2
      subst f1
      exfalso
      exact (List.nodup_cons.1 hnd).1 (List.mem_map.2 ⟨(k, a), h1, rfl⟩)
    · exact assoc_unique rest (List.nodup_cons.1 hnd).2 h1 h2

theorem validate_category_structure_ok (cats : List (String × JVal))
    (h : ∀ kv ∈ cats, CatRecordOk kv.2) : validate_category_structure cats = [] := by
  rw [validate_category_structure, List.flatten_eq_nil_iff]
  intro l hl
  rcases List.mem_map.1 hl with ⟨kv, hkv, rfl⟩
  exact catEntryErrors_ok kv.1 kv.2 (h kv hkv)

theorem refs_aux_clean : ∀ (tl : List JVal) (i : Nat) (refs0 : List String),
    (∀ t ∈ tl, ∃ fs s, t = JVal.obj fs
      ∧ lookupField "category" fs = some (.str s) ∧ s.isEmpty = false) →
    ∃ refs, categoriesTypeAndRefsAux tl i refs0 = .ok ([], refs)
      ∧ (∀ c, c ∈ refs ↔ c ∈ refs0 ∨ c ∈ refCats tl)
  | [], _, refs0, _ => ⟨refs0, rfl, by simp [refCats]⟩
  | t :: ts, i, refs0, h => by
    obtain ⟨fs, s, rfl, hs, hse⟩ := h t (List.mem_cons_self _ _)
    obtain ⟨refs, heq, hmem⟩ := refs_aux_clean ts (i + 1) (setAddStr refs0 s)
      (fun t ht => h t (List.mem_cons_of_mem _ ht))
    have htr : pyTruthy (.str s) = true := by simp [pyTruthy, hse]
    refine ⟨refs, ?_, ?_⟩
    · simp [categoriesTypeAndRefsAux, pyGetD, hs, htr, heq]
    · intro c
      rw [hmem c, refCats_cons_str hs hse, mem_setAddStr, List.mem_cons]
      tauto

theorem validate_categories_ok (tl : List JVal) (cats : List (String × JVal))
    (htool : ∀ t ∈ tl, ∃ fs s, t = JVal.obj fs
      ∧ lookupField "category" fs = some (.str s) ∧ s.isEmpty = false)
    (hrefdef : ∀ c ∈ refCats tl, ∃ v, (c, v) ∈ cats)
    (hdefref : ∀ kv ∈ cats, kv.1 ∈ refCats tl) :
    validate_categories tl cats = .ok [] := by
  obtain ⟨refs, heq, hmem⟩ := refs_aux_clean tl 0 [] htool
  have hmem' : ∀ c, c ∈ refs ↔ c ∈ refCats tl := by
    intro c
    rw [hmem c]
    simp
  have hmiss : missingCategories refs cats = [] := by
    rw [missingCategories]
    have : refs.filter (fun c => !(dedupStrs (cats.map Prod.fst)).contains c) = [] := by
      rw [List.filter_eq_nil_iff]
      intro c hc
      obtain ⟨v, hv⟩ := hrefdef c ((hmem' c).1 hc)
      have h3 : c ∈ dedupStrs (cats.map Prod.fst) :=
        (mem_dedupStrs _ _).2 (List.mem_map.2 ⟨(c, v), hv, rfl⟩)
      simp
      exact h3
    rw [this]
    rfl
  have hun : unusedCategories refs cats = [] := by
    rw [unusedCategories]
    have : (dedupStrs (cats.map Prod.fst)).filter (fun c => !refs.contains c) = [] := by
      rw [List.filter_eq_nil_iff]
      intro c hc
      rcases List.mem_map.1 ((mem_dedupStrs _ _).1 hc) with ⟨kv, hkv, rfl⟩
      have h3 : kv.1 ∈ refs := (hmem' kv.1).2 (hdefref kv hkv)
      simp
      exact h3
    rw [this]
    rfl
  rw [validate_categories, heq]
  simp [hmiss, hun]

theorem pyDictSet_append (acc : List (JVal × JVal)) (k v : JVal)
    (h : ∀ q ∈ acc, pyEq q.1 k = false) : pyDictSet acc k v = acc ++ [(k, v)] := by
  induction acc with
  | nil => rfl
  | cons q rest ih =>
    rw [show pyDictSet (q :: rest) k v
        = if pyEq q.1 k then (q.1, v) :: rest else q :: pyDictSet rest k v from rfl]
    rw [h q (List.mem_cons_self _ _)]
    simp only [Bool.false_eq_true, if_false, List.cons_append]
    rw [ih (fun q2 hq2 => h q2 (List.mem_cons_of_mem _ hq2))]

theorem names_of_nameTypes : ∀ (tl : List JVal),
    (∀ t ∈ tl, ∃ fs n ty, t = JVal.obj fs ∧ lookupField "name" fs = some (.str n)
      ∧ lookupField "type" fs = some (.str ty)) →
    (tl.filterMap toolNameTypeOf).map Prod.fst = tl.filterMap toolNameOf
  | [], _ => rfl
  | t :: ts, h => by
    obtain ⟨fs, n, ty, rfl, hn, hty⟩ := h t (List.mem_cons_self _ _)
    have ih := names_of_nameTypes ts (fun t ht => h t (List.mem_cons_of_mem _ ht))
    rw [List.filterMap_cons, List.filterMap_cons]
    simp only [toolNameTypeOf, toolNameOf, hn, hty]
    rw [List.map_cons, ih]

theorem jsonToolsDictAux_nodup_eq : ∀ (tl : List JVal) (acc : List (JVal × JVal)),
    (∀ t ∈ tl, ∃ fs n ty, t = JVal.obj fs ∧ lookupField "name" fs = some (.str n)
      ∧ lookupField "type" fs = some (.str ty)) →
    (tl.filterMap toolNameOf).Nodup →
    (∀ n ∈ tl.filterMap toolNameOf, ∀ q ∈ acc, pyEq q.1 (.str n) = false) →
    jsonToolsDictAux tl acc
      = .ok (acc ++ (tl.filterMap toolNameTypeOf).map
          (fun p => (JVal.str p.1, JVal.str p.2)))
  | [], acc, _, _, _ => by simp [jsonToolsDictAux]
  | t :: ts, acc, h, hnd, hdisj => by
    obtain ⟨fs, n, ty, rfl, hn, hty⟩ := h t (List.mem_cons_self _ _)
    have hmap : (JVal.obj fs :: ts).filterMap toolNameOf = n :: ts.filterMap toolNameOf := by
      rw [List.filterMap_cons]
      simp only [toolNameOf, hn]
    rw [hmap] at hnd hdisj
    have hset : pyDictSet acc (.str n) (.str ty) = acc ++ [(.str n, .str ty)] :=
      pyDictSet_append acc _ _ (hdisj n (List.mem_cons_self _ _))
    have ih := jsonToolsDictAux_nodup_eq ts (acc ++ [(.str n, .str ty)])
      (fun t ht => h t (List.mem_cons_of_mem _ ht))
      hnd.of_cons
      (fun m hm q hq => by
        rcases List.mem_append.1 hq with h1 | h1
        · exact hdisj m (List.mem_cons_of_mem _ hm) q h1
        · rw [List.mem_singleton.1 h1]
          have : n ≠ m := fun he => (List.nodup_cons.1 hnd).1 (he ▸ hm)
          simp [pyEq, this])
    rw [show jsonToolsDictAux (JVal.obj fs :: ts) acc
        = jsonToolsDictAux ts (pyDictSet acc ((lookupField "name" fs).getD .null)
            ((lookupField "type" fs).getD .null)) from by
      simp [jsonToolsDictAux, pyGetD, hn, hty, pyHashable]]
    rw [hn, hty]
    simp only [Option.getD_some]
    rw [hset, ih]
    rw [List.filterMap_cons]
    simp only [toolNameTypeOf, hn, hty]
    rw [List.map_cons, List.append_assoc, List.singleton_append]

theorem pyDictGet_mapped (pl : List (String × String)) (n t : String)
    (hmem : (n, t) ∈ pl) (hnd : (pl.map Prod.fst).Nodup) :
    pyDictGet (pl.map (fun p => (JVal.str p.1, JVal.str p.2))) (.str n)
      = some (.str t) := by
  induction pl with
  | nil => simp at hmem
  | cons q rest ih =>
    rcases List.mem_cons.1 hmem with h1 | h1
    · rw [← h1]
      simp [pyDictGet, pyEq]
    · have hne : q.1 ≠ n := by
        intro he
        exact (List.nodup_cons.1 hnd).1
          (he ▸ List.mem_map.2 ⟨(n, t), h1, rfl⟩)
      rw [List.map_cons, show pyDictGet ((JVal.str q.1, JVal.str q.2)
          :: rest.map (fun p => (JVal.str p.1, JVal.str p.2))) (.str n)
          = if pyEq (.str q.1) (.str n) then some (.str q.2)
            else pyDictGet (rest.map (fun p => (JVal.str p.1, JVal.str p.2))) (.str n)
          from rfl]
      simp only [pyEq]
      rw [if_neg (by simp [hne])]
      exact ih h1 (List.nodup_cons.1 hnd).2

theorem validate_fs_ok (td : List (String × JVal)) (tl : List JVal)
    (fs2 : List (String × String))
    (htools : lookupField "tools" td = some (.list tl))
    (h : ∀ t ∈ tl, ∃ fs n ty, t = JVal.obj fs ∧ lookupField "name" fs = some (.str n)
      ∧ lookupField "type" fs = some (.str ty))
    (hnd : (tl.filterMap toolNameOf).Nodup)
    (hagree : ∀ p ∈ fs2, (p.1, p.2) ∈ tl.filterMap toolNameTypeOf) :
    validate_filesystem_tools_in_json td fs2 = .ok [] := by
  have hjd := jsonToolsDictAux_nodup_eq tl [] h hnd (by simp)
  rw [List.nil_append] at hjd
  have hmapnd : ((tl.filterMap toolNameTypeOf).map Prod.fst).Nodup := by
    rw [names_of_nameTypes tl h]
    exact hnd
  have hflat : (fs2.map (fsEntryErrors
      ((tl.filterMap toolNameTypeOf).map (fun p => (JVal.str p.1, JVal.str p.2))))).flatten
      = [] := by
    rw [List.flatten_eq_nil_iff]
    intro l hl
    rcases List.mem_map.1 hl with ⟨p, hp, rfl⟩
    have hget := pyDictGet_mapped _ p.1 p.2 (hagree p hp) hmapnd
    rw [fsEntryErrors, hget]
    simp [pyEq]
  rw [validate_filesystem_tools_in_json]
  simp [htools, pyIter, hjd, hflat]

/-- C2: the Validator returns the empty error list on every valid catalog:
tools are records with exactly the four fields, all four values non-empty
non-whitespace strings and a valid type; tool names pairwise distinct; every
referenced category defined (with non-empty string name and description) and
every defined category referenced; and every FilesystemToolView entry has a
same-named, same-typed catalog tool. -/
theorem c2_valid_catalog_no_errors (td : List (String × JVal)) (tl : List JVal)
    (cats : List (String × JVal)) (fsv : Option (List (String × String)))
    (htools : lookupField "tools" td = some (.list tl))
    (hcats : lookupField "categories" td = some (.obj cats))
    (htool : ∀ t ∈ tl, ∃ fs, t = JVal.obj fs ∧ ToolRecordOk fs)
    (hnames : (tl.filterMap toolNameOf).Nodup)
    (hcatkeys : (cats.map Prod.fst).Nodup)
    (hrefdef : ∀ c ∈ refCats tl, ∃ v, (c, v) ∈ cats ∧ CatRecordOk v)
    (hdefref : ∀ kv ∈ cats, kv.1 ∈ refCats tl)
    (hfs : ∀ fs2, fsv = some fs2 → ∀ p ∈ fs2, (p.1, p.2) ∈ tl.filterMap toolNameTypeOf) :
    validate_tools_json td fsv = .ok [] := by
  have hnt : ∀ t ∈ tl, ∃ fs n ty, t = JVal.obj fs
      ∧ lookupField "name" fs = some (.str n) ∧ lookupField "type" fs = some (.str ty) := by
    intro t ht
    obtain ⟨fs, rfl, hok⟩ := htool t ht
    obtain ⟨n, hn, _⟩ := hok.2.2.1 "name" (by decide)
    obtain ⟨ty, hty, _⟩ := hok.2.2.1 "type" (by decide)
    exact ⟨fs, n, ty, rfl, hn, hty⟩
  have hpt : perToolErrors tl 0 = .ok [] :=
    perToolErrors_ok tl 0 (fun t ht => by
      obtain ⟨fs, rfl, hok⟩ := htool t ht
      exact ⟨fs, rfl, hok⟩)
  have huq : validate_tool_names_unique tl = .ok [] := by
    rw [validate_tool_names_unique]
    refine uniq_ok tl [] (fun t ht => ?_) hnames (fun n _ => rfl)
    obtain ⟨fs, rfl, hok⟩ := htool t ht
    obtain ⟨s, hs, hse⟩ := hok.2.2.1 "name" (by decide)
    exact ⟨fs, rfl, s, hs, isEmpty_false_of_strip s hse⟩
  have hcs : validate_category_structure cats = [] := by
    refine validate_category_structure_ok cats (fun kv hkv => ?_)
    obtain ⟨v, hv, hvok⟩ := hrefdef kv.1 (hdefref kv hkv)
    have : v = kv.2 := assoc_unique cats hcatkeys hv (by
      rw [show (kv.1, kv.2) = kv from rfl]
      exact hkv)
    rw [← this]
    exact hvok
  have hvc : validate_categories tl cats = .ok [] := by
    refine validate_categories_ok tl cats (fun t ht => ?_)
      (fun c hc => ⟨(hrefdef c hc).choose, (hrefdef c hc).choose_spec.1⟩) hdefref
    obtain ⟨fs, rfl, hok⟩ := htool t ht
    obtain ⟨s, hs, hse⟩ := hok.2.2.1 "category" (by decide)
    exact ⟨fs, s, rfl, hs, isEmpty_false_of_strip s hse⟩
  rw [validate_tools_json]
  simp only [htools, hcats, Option.isNone_some, Bool.false_eq_true, if_false,
    Option.getD_some]
  rcases fsv with _ | fs2
  · simp [hpt, huq, hcs, hvc]
  · have hfse : validate_filesystem_tools_in_json td fs2 = .ok [] :=
      validate_fs_ok td tl fs2 htools hnt hnames (hfs fs2 rfl)
    simp [hpt, huq, hcs, hvc, hfse]

/-- C2 witness: a one-tool, one-category valid catalog with a matching
filesystem view. -/
theorem c2_witness :
    validate_tools_json
      [("tools", .list [.obj [("name", .str "a"), ("description", .str "d"),
        ("type", .str "skill"), ("category", .str "c")]]),
       ("categories", .obj [("c", .obj [("name", .str "C"),
         ("description", .str "D")])])]
      (some [("a", "skill")]) = .ok [] := by
  refine c2_valid_catalog_no_errors _ _ _ _ rfl rfl ?_ (by decide) (by decide) ?_ ?_ ?_
  · intro t ht
    fin_cases ht
    refine ⟨_, rfl, ?_, ?_, ?_, ?_⟩
    · decide
    · decide
    · intro f hf
      fin_cases hf
      · exact ⟨"a", rfl, by decide⟩
      · exact ⟨"d", rfl, by decide⟩
      · exact ⟨"skill", rfl, by decide⟩
      · exact ⟨"c", rfl, by decide⟩
    · exact ⟨"skill", rfl, by decide⟩
  · intro c hc
    have : c = "c" := by
      have h2 : refCats [JVal.obj [("name", .str "a"), ("description", .str "d"),
        ("type", .str "skill"), ("category", .str "c")]] = ["c"] := rfl
      rw [h2] at hc
      exact List.mem_singleton.1 hc
    subst this
    exact ⟨.obj [("name", .str "C"), ("description", .str "D")],
      List.mem_singleton.2 rfl,
      _, rfl, ⟨"C", rfl, by decide⟩, ⟨"D", rfl, by decide⟩⟩
  · intro kv hkv
    have := List.mem_singleton.1 hkv
    subst this
    decide
  · intro fs2 heq p hp
    injection heq with heq2
    subst heq2
    fin_cases hp
    decide
